import Mathlib

/-!
xt_tls: SNI extraction from TLS ClientHello and QUIC CHLO packets.

A shallow embedding of `src/xt_tls.c` (`get_tls_hostname`, `get_quic_hostname`,
`tls_mt`, `tls_mt_check`) and theorems about it.

Conventions of the embedding

* Packet memory is a function `data : Nat → Nat` giving the byte stored at each
  index counted from the first payload byte; a read takes the value modulo 256.
  The payload proper is the index range `[0, data_len)`; the function also
  answers for indices at or beyond `data_len`, which is what a C read past the
  end of the payload observes.
* `char` is signed on some kernel builds and unsigned on others, and the QUIC
  parser uses multi-byte values in host byte order; both facts are fields of
  `Host`, and every definition that depends on them takes a `Host`.
* `u_int16_t` values are reduced modulo `2 ^ 16` where they are assigned.  The
  `u_int` (32-bit) variables `offset` and `extension_offset` of
  `get_tls_hostname` stay below `3 * 65536` on every path (each is a sum of at
  most three 16-bit quantities and small constants), so they are plain `Nat`.
* Every function returns, next to its outcome, the list of payload indices it
  read, in program order.
* Neither parser tests the result of `kmalloc`.  A request of at most
  `KMALLOC_MAX_SIZE` bytes is taken to be served, a larger one returns NULL and
  the copy through it does not return.  `get_tls_hostname` asks for at most
  65536 bytes; `get_quic_hostname` asks for whatever the wire says.
-/

set_option maxRecDepth 100000

namespace XtTls

/-- Facts about the build the module runs on. -/
structure Host where
  /-- whether plain `char` is a signed type -/
  char_signed : Bool
  /-- whether the host stores multi-byte integers least significant byte first -/
  little_endian : Bool
deriving DecidableEq

/-- The errno value returned on every failure path. -/
def EPROTO : Nat := 71

/-- How a parser call ends. -/
inductive Outcome where
  /-- the call executes `return 0`, with `*dest` pointing at a fresh buffer holding these bytes -/
  | ok (dest : List Nat)
  /-- the call executes `return EPROTO`, `*dest` not written -/
  | eproto
  /-- the call does not return: `kmalloc` was asked for a size it does not serve
      (one derived from a negative `int`, or one above `KMALLOC_MAX_SIZE`) and the
      copy that follows writes through its unchecked result -/
  | fault
deriving DecidableEq

/-- The `int` a call returns, when it returns. -/
def Outcome.ret : Outcome → Option Nat
  | Outcome.ok _ => some 0
  | Outcome.eproto => some EPROTO
  | Outcome.fault => none

/-- The outcome of a call together with the payload indices it read. -/
structure Run where
  out : Outcome
  reads : List Nat
deriving DecidableEq

/-- The byte stored at index `i`. -/
def u8 (data : Nat → Nat) (i : Nat) : Nat := data i % 256

/-- The value of the expression `data[i]` of type `char` for a stored byte `b`. -/
def char (h : Host) (b : Nat) : Int :=
  if h.char_signed ∧ 128 ≤ b then (b : Int) - 256 else (b : Int)

/-- Conversion of an `int` to `u_int8_t`. -/
def to_u8 (x : Int) : Nat := (x % 256).toNat

/-- Conversion of an `int` to `u_int16_t`. -/
def to_u16 (x : Int) : Nat := (x % 65536).toNat

/-- The two bytes at `i`, `i + 1` copied into a `u_int16_t` and passed through
`ntohs`: the big-endian value, whatever the host byte order. -/
def be16 (data : Nat → Nat) (i : Nat) : Nat := u8 data i * 256 + u8 data (i + 1)

/-- C library `strncpy(dest, &data[p], n)`: the `n` bytes written to `dest`
(source bytes up to the first zero byte, then zero padding) and the source
indices read. -/
def strncpy (data : Nat → Nat) : Nat → Nat → List Nat × List Nat
  | _, 0 => ([], [])
  | p, n + 1 =>
    if u8 data p = 0 then (List.replicate (n + 1) 0, [p])
    else (u8 data p :: (strncpy data (p + 1) n).1, p :: (strncpy data (p + 1) n).2)

/-- The bytes of a NUL-terminated C string stored in a buffer: everything before
the first zero byte. -/
def cstr : List Nat → List Nat
  | [] => []
  | b :: bs => if b = 0 then [] else b :: cstr bs

/-- The value `get_tls_hostname` leaves in `tls_header_len` (lines 124-129):
`(data[3] << 8) + data[4] + 5` stored in a `u_int16_t`, then replaced by
`data_len` when it exceeds it. -/
def tls_header_len (h : Host) (data : Nat → Nat) (data_len : Nat) : Nat :=
  let raw := to_u16 (char h (u8 data 3) * 256 + char h (u8 data 4) + 5)
  if raw > data_len then data_len % 65536 else raw

/-- The `while (extension_offset < extensions_len)` loop of `get_tls_hostname`
(lines 201-248).  Each iteration uses one unit of `fuel`; `none` means the fuel
ran out before the loop ended.  `kmalloc` is taken to succeed. -/
def ext_walk (data : Nat → Nat) (offset extensions_len : Nat) : Nat → Nat → Option Run
  | 0, extension_offset =>
    if extension_offset < extensions_len then none else some ⟨Outcome.eproto, []⟩
  | fuel + 1, extension_offset =>
    if extension_offset < extensions_len then
      let extension_id := be16 data (offset + extension_offset)
      let extension_len := be16 data (offset + (extension_offset + 2))
      let hdr := [offset + extension_offset, offset + extension_offset + 1,
                  offset + extension_offset + 2, offset + extension_offset + 3]
      if extension_id = 0 then
        -- skip the header (4) and the server name list length (2)
        let name_type_at := offset + (extension_offset + 6)
        let name_length := be16 data (offset + (extension_offset + 7))
        let cp := strncpy data (offset + (extension_offset + 9)) name_length
        some ⟨Outcome.ok (cp.1 ++ [0]),
              hdr ++ [name_type_at, name_type_at + 1, name_type_at + 2] ++ cp.2⟩
      else
        (ext_walk data offset extensions_len fuel
            (extension_offset + 4 + extension_len)).map
          (fun r => ⟨r.out, hdr ++ r.reads⟩)
    else some ⟨Outcome.eproto, []⟩

/-- The body of `get_tls_hostname` from line 119 on, over the TCP payload
`data[0 .. data_len)`. The loop is given `extensions_len` units of fuel. -/
def get_tls_hostname_data (h : Host) (data : Nat → Nat) (data_len : Nat) : Option Run :=
  if char h (u8 data 0) ≠ 0x16 then some ⟨Outcome.eproto, [0]⟩
  else
    let tls_header_len := tls_header_len h data data_len
    let handshake_protocol := to_u8 (char h (u8 data 5))
    let r0 := [0, 3, 4, 5]
    if tls_header_len > 4 then
      if handshake_protocol = 0x01 then
        let base_offset := 43
        if base_offset + 2 > data_len then some ⟨Outcome.eproto, r0⟩
        else
          let session_id_len := to_u16 (char h (u8 data base_offset))
          let r1 := r0 ++ [base_offset]
          if session_id_len + base_offset + 2 > tls_header_len then some ⟨Outcome.eproto, r1⟩
          else
            let cipher_len := be16 data (base_offset + session_id_len + 1)
            let r2 := r1 ++ [base_offset + session_id_len + 1, base_offset + session_id_len + 2]
            let offset := base_offset + session_id_len + cipher_len + 2
            if offset > tls_header_len then some ⟨Outcome.eproto, r2⟩
            else
              let compression_len := to_u16 (char h (u8 data (offset + 1)))
              let r3 := r2 ++ [offset + 1]
              let offset := offset + (compression_len + 2)
              if offset > tls_header_len then some ⟨Outcome.eproto, r3⟩
              else
                let extensions_len := be16 data offset
                let r4 := r3 ++ [offset, offset + 1]
                if extensions_len + offset > tls_header_len then some ⟨Outcome.eproto, r4⟩
                else
                  (ext_walk data offset extensions_len extensions_len 2).map
                    (fun r => ⟨r.out, r4 ++ r.reads⟩)
      else some ⟨Outcome.eproto, r0⟩
    else some ⟨Outcome.eproto, r0⟩

/-- Transport-layer view of one packet: what lines 32-35 and 112-117 of the
source obtain from the socket buffer before any payload byte is examined, plus
the network-header fields `tls_mt` looks at. -/
structure sk_buff where
  /-- the field `ip_header->version` -/
  version : Nat
  /-- the field `ip_header->protocol`, the IPv4 protocol field -/
  protocol : Nat
  /-- the field `ipv6_header->nexthdr`, the IPv6 next-header field -/
  nexthdr : Nat
  /-- memory from `tcp_header + tcp_header->doff * 4` on -/
  tcp_data : Nat → Nat
  /-- the difference `tail - data`, the number of TCP payload bytes -/
  tcp_data_len : Nat
  /-- the value `ntohs(udp_header->len)` -/
  udp_len : Nat
  /-- memory from `udp_header + 8` on -/
  udp_data : Nat → Nat

/-- Source function `get_tls_hostname`; `none` only if the extension loop ran out
of fuel. -/
def get_tls_hostname (h : Host) (skb : sk_buff) : Option Run :=
  get_tls_hostname_data h skb.tcp_data skb.tcp_data_len

/-- C library `strncmp(a, b, n) == 0` with one operand in packet memory at `p`
and the other a literal, given as the bytes the comparison may reach (at most
`n` of them, the terminating zero included when `n` exceeds the length of the
literal): the verdict and the packet indices read.  The comparison stops at the
first difference, after a zero byte, or after `n` bytes. -/
def strncmp_eq (data : Nat → Nat) : Nat → List Nat → Bool × List Nat
  | _, [] => (true, [])
  | p, c :: cs =>
    if u8 data p ≠ c then (false, [p])
    else if c = 0 then (true, [p])
    else ((strncmp_eq data (p + 1) cs).1, p :: (strncmp_eq data (p + 1) cs).2)

/-- Two bytes copied by `memcpy` into a `u_int16_t` and used as they are (the
result of `ntohs` on line 62 is discarded). -/
def host16 (h : Host) (data : Nat → Nat) (i : Nat) : Nat :=
  if h.little_endian then u8 data i + 256 * u8 data (i + 1)
  else u8 data i * 256 + u8 data (i + 1)

/-- Four bytes copied by `memcpy` into a `u_int32_t` and used as they are (the
result of `ntohs` on line 75 is discarded). -/
def host32 (h : Host) (data : Nat → Nat) (i : Nat) : Nat :=
  if h.little_endian then
    u8 data i + 256 * u8 data (i + 1) + 65536 * u8 data (i + 2) + 16777216 * u8 data (i + 3)
  else
    16777216 * u8 data i + 65536 * u8 data (i + 1) + 256 * u8 data (i + 2) + u8 data (i + 3)

/-- The `int` obtained from the `u_int32_t` difference `a - b`. -/
def sub_i32 (a b : Nat) : Int :=
  let d := (a + 4294967296 - b % 4294967296) % 4294967296
  if d < 2147483648 then (d : Int) else (d : Int) - 4294967296

/-- The largest request `kmalloc` serves: `KMALLOC_MAX_SIZE` of the kernel headers,
`1 << 22` with 4 KiB pages and the default maximal page order.  A larger request
returns NULL. -/
def KMALLOC_MAX_SIZE : Nat := 4194304

/-- The `for (i = 0; i < tag_number; i++)` loop of `get_quic_hostname` (lines
68-91); the first argument counts the iterations still to run.  The result of
`kmalloc` is used unchecked (lines 84-86): when `name_length` is negative, or
`name_length + 1` exceeds `KMALLOC_MAX_SIZE`, no buffer of the size needed is
obtained and the first store of `strncpy`, made after its first load, does not
return.  A request of at most `KMALLOC_MAX_SIZE` bytes is taken to succeed. -/
def tag_walk (h : Host) (data : Nat → Nat) (offset tag_number : Nat) : Nat → Nat → Nat → Run
  | 0, _, _ => ⟨Outcome.eproto, []⟩
  | n + 1, tag_offset, prev_end_offset =>
    let m := strncmp_eq data (offset + tag_offset) [83, 78, 73, 0]
    let e := offset + (tag_offset + 4)
    let tag_end_offset := host32 h data e
    let rd := m.2 ++ [e, e + 1, e + 2, e + 3]
    if m.1 then
      let name_length := sub_i32 tag_end_offset prev_end_offset
      let src := (offset + tag_number * 8 + prev_end_offset) % 4294967296
      if name_length < 0 then ⟨Outcome.fault, rd ++ [src]⟩
      else if KMALLOC_MAX_SIZE < name_length.toNat + 1 then ⟨Outcome.fault, rd ++ [src]⟩
      else
        let cp := strncpy data src name_length.toNat
        ⟨Outcome.ok (cp.1 ++ [0]), rd ++ cp.2⟩
    else
      let r := tag_walk h data offset tag_number n (tag_offset + 8) tag_end_offset
      ⟨r.out, rd ++ r.reads⟩

/-- The body of `get_quic_hostname` from line 40 on, over the UDP payload `data`
and the length field `udpdatalen` of the UDP header. -/
def get_quic_hostname_data (h : Host) (udpdatalen : Nat) (data : Nat → Nat) : Run :=
  if udpdatalen ≠ 1358 then ⟨Outcome.eproto, []⟩
  else
    let base_offset := 13
    let offset := base_offset + 17
    let c := strncmp_eq data offset [67, 72, 76, 79]
    if c.1 then
      let offset := offset + 4
      let tag_number := host16 h data offset
      let offset := offset + 4
      let r := tag_walk h data offset tag_number tag_number 0 0
      ⟨r.out, c.2 ++ [34, 35] ++ r.reads⟩
    else ⟨Outcome.eproto, c.2⟩

/-- Source function `get_quic_hostname`. -/
def get_quic_hostname (h : Host) (skb : sk_buff) : Run :=
  get_quic_hostname_data h skb.udp_len skb.udp_data

/-- Protocol numbers from the kernel headers. -/
def IPPROTO_TCP : Int := 6

/-- Protocol number of UDP. -/
def IPPROTO_UDP : Int := 17

/-- The rule configuration `struct xt_tls_info`. -/
structure xt_tls_info where
  /-- the `invert` flag word -/
  invert : Nat
  /-- the glob pattern, as the bytes of the C string -/
  tls_host : List Nat

/-- What the build supplies to `tls_mt` from outside the source file: the
flag bit `XT_TLS_OP_HOST` of `xt_tls.h` and the kernel's `glob_match`, a pure
function of two C strings. -/
structure Ext where
  XT_TLS_OP_HOST : Nat
  glob_match : List Nat → List Nat → Bool

/-- The two parsers `tls_mt` can call. -/
inductive Parser where
  | tls
  | quic
deriving DecidableEq

/-- One evaluation of `tls_mt`. -/
structure MtRun where
  /-- the value returned; `none` when the parser call did not return -/
  verdict : Option Bool
  /-- the parser that was called, if any, with its outcome -/
  parsed : Option (Parser × Outcome)
deriving DecidableEq

/-- Lines 299-310 of `tls_mt`, and the `return false` after a failed parse. -/
def mt_finish (x : Ext) (info : xt_tls_info) (invert : Bool) (p : Parser) (out : Outcome) : MtRun :=
  match out with
  | Outcome.ok dest =>
    let m := x.glob_match info.tls_host (cstr dest)
    ⟨some (if invert then !m else m), some (p, out)⟩
  | Outcome.eproto => ⟨some false, some (p, out)⟩
  | Outcome.fault => ⟨none, some (p, out)⟩

/-- Source function `tls_mt`.  `proto_uninit` is the indeterminate value the
local `proto` holds when no branch assigns it; `none` only if the extension loop
of the TLS parser ran out of fuel. -/
def tls_mt (h : Host) (x : Ext) (proto_uninit : Int) (skb : sk_buff) (info : xt_tls_info) :
    Option MtRun :=
  let invert : Bool := decide (info.invert &&& x.XT_TLS_OP_HOST ≠ 0)
  -- lines 263-279: `none` stands for the `return false` that ends the IPv6 branch
  let proto : Option Int :=
    if skb.version = 4 then some (skb.protocol : Int)
    else if skb.version = 6 then none
    else some proto_uninit
  match proto with
  | none => some ⟨some false, none⟩
  | some proto =>
    if proto = IPPROTO_TCP then
      (get_tls_hostname h skb).map (fun r => mt_finish x info invert Parser.tls r.out)
    else if proto = IPPROTO_UDP then
      some (mt_finish x info invert Parser.quic (get_quic_hostname h skb).out)
    else some ⟨some false, none⟩

/-- Netfilter family number of IPv4, from the kernel headers. -/
def NFPROTO_IPV4 : Nat := 2

/-- Netfilter family number of IPv6, from the kernel headers. -/
def NFPROTO_IPV6 : Nat := 10

/-- The errno value `tls_mt_check` returns negated. -/
def EINVAL : Int := 22

/-- What `tls_mt_check` reads of its `struct xt_mtchk_param`. -/
structure xt_mtchk_param where
  /-- the field `par->family` -/
  family : Nat
  /-- the 16-bit field `proto` of `par->entryinfo` read as `struct ipt_ip` -/
  ipt_proto : Nat
  /-- the 16-bit field `proto` of `par->entryinfo` read as `struct ip6t_ip6` -/
  ip6t_proto : Nat

/-- Source function `tls_mt_check` (lines 314-333). -/
def tls_mt_check (par : xt_mtchk_param) : Int :=
  -- lines 318-324: `none` stands for the `return -EINVAL` of the last branch
  let proto : Option Int :=
    if par.family = NFPROTO_IPV4 then some (par.ipt_proto : Int)
    else if par.family = NFPROTO_IPV6 then some (par.ip6t_proto : Int)
    else none
  match proto with
  | none => -EINVAL
  | some proto =>
    if proto ≠ IPPROTO_TCP ∧ proto ≠ IPPROTO_UDP then -EINVAL else 0


/-! Definitions used to state the claims -/

/-- The bytes `data[p .. p + n)`. -/
def span (data : Nat → Nat) : Nat → Nat → List Nat
  | _, 0 => []
  | p, n + 1 => u8 data p :: span data (p + 1) n

/-- Packet memory holding the listed bytes from index 0, zero elsewhere. -/
def mem (l : List Nat) : Nat → Nat := fun i => l.getD i 0

/-- Two-byte big-endian encoding. -/
def enc16 (n : Nat) : List Nat := [n / 256, n % 256]

/-- The code's `session_id_len`. -/
def session_id_len (h : Host) (data : Nat → Nat) : Nat := to_u16 (char h (u8 data 43))

/-- The code's `offset` after the cipher suites (line 160). -/
def cipher_end (h : Host) (data : Nat → Nat) : Nat :=
  43 + session_id_len h data + be16 data (43 + session_id_len h data + 1) + 2

/-- The code's `offset` after the compression methods (line 174): the index of the extensions length. -/
def ext_base (h : Host) (data : Nat → Nat) : Nat :=
  cipher_end h data + (to_u16 (char h (u8 data (cipher_end h data + 1))) + 2)

/-- The code's `compression_len` (line 173). -/
def compression_len (h : Host) (data : Nat → Nat) : Nat :=
  to_u16 (char h (u8 data (cipher_end h data + 1)))

/-- RFC 5246 ClientHello layout: the index of the one-byte compression-methods length,
after the session-id length at 43, `s` session-id bytes, the two-byte cipher-suites length
and `c` cipher-suite bytes. -/
def rfc_compression_len_index (s c : Nat) : Nat := 43 + 1 + s + 2 + c

/-- RFC 5246 ClientHello layout: the index of the two-byte extensions length, after the
compression-methods length and `m` compression-method bytes. -/
def rfc_extensions_len_index (s c m : Nat) : Nat := rfc_compression_len_index s c + 1 + m

/-- All the checks that precede the loop pass. -/
def hdr_ok (h : Host) (data : Nat → Nat) (data_len : Nat) : Prop :=
  u8 data 0 = 0x16 ∧ 4 < tls_header_len h data data_len ∧ u8 data 5 = 0x01 ∧ 45 ≤ data_len ∧
  session_id_len h data + 45 ≤ tls_header_len h data data_len ∧
  cipher_end h data ≤ tls_header_len h data data_len ∧
  ext_base h data ≤ tls_header_len h data data_len ∧
  be16 data (ext_base h data) + ext_base h data ≤ tls_header_len h data data_len

instance (h : Host) (data : Nat → Nat) (data_len : Nat) : Decidable (hdr_ok h data data_len) := by
  unfold hdr_ok
  infer_instance

/-- The indices read before the loop when all checks pass. -/
def hdr_reads (h : Host) (data : Nat → Nat) : List Nat :=
  [0, 3, 4, 5, 43, 43 + session_id_len h data + 1, 43 + session_id_len h data + 2,
   cipher_end h data + 1, ext_base h data, ext_base h data + 1]


/-- One ClientHello extension: its type and its body. -/
structure Extension where
  id : Nat
  body : List Nat

/-- Wire form of an extension: type, body length, body. -/
def Extension.encode (e : Extension) : List Nat :=
  enc16 e.id ++ enc16 e.body.length ++ e.body

/-- Wire form of a sequence of extensions. -/
def encode_exts : List Extension → List Nat
  | [] => []
  | e :: es => e.encode ++ encode_exts es

/-- Body of a server_name extension whose first entry is `name`. -/
def sni_body (list_len name_type : Nat) (name rest : List Nat) : List Nat :=
  enc16 list_len ++ name_type :: enc16 name.length ++ name ++ rest

/-- RFC 5246 layout of a ClientHello record lying wholly inside the payload: handshake
record, ClientHello, session-id length `s` at 43, cipher-suites length `c` at `44 + s`,
compression-methods length `m` at `46 + s + c`, extensions length at `47 + s + c + m`,
the extensions block filled exactly by the wire form of `exts`, all of it inside the
record, and the record inside the payload. -/
def WellFormedClientHello (data : Nat → Nat) (data_len s c m : Nat) (exts : List Extension) : Prop :=
  u8 data 0 = 0x16 ∧ u8 data 5 = 0x01 ∧ u8 data 43 = s ∧ be16 data (44 + s) = c ∧
  u8 data (46 + s + c) = m ∧ be16 data (47 + s + c + m) = (encode_exts exts).length ∧
  span data (49 + s + c + m) (encode_exts exts).length = encode_exts exts ∧
  49 + s + c + m + (encode_exts exts).length ≤ be16 data 3 + 5 ∧ be16 data 3 + 5 ≤ data_len

instance (data : Nat → Nat) (data_len s c m : Nat) (exts : List Extension) :
    Decidable (WellFormedClientHello data data_len s c m exts) := by
  unfold WellFormedClientHello
  infer_instance


/-- Packet memory holding `l` from index 0 and `far` from index `k` on, zero elsewhere. -/
def mem2 (l : List Nat) (k : Nat) (far : List Nat) : Nat → Nat :=
  fun i => if i < k then l.getD i 0 else far.getD (i - k) 0

/-- Bytes of a TLS record holding a ClientHello: record header with length field `rec_len`,
handshake type 1 with a three-byte length `rec_len - 4`, client version 3.3, a 32-byte
random (left zero), then session id, cipher suites, compression methods and extensions,
each behind its length. -/
def client_hello (rec_len : Nat) (sid ciphers comps : List Nat) (exts : List Extension) : List Nat :=
  [0x16, 3, 1] ++ enc16 rec_len ++ [1, 0] ++ enc16 (rec_len - 4) ++ [3, 3] ++
  List.replicate 32 0 ++
  sid.length :: sid ++ enc16 ciphers.length ++ ciphers ++ comps.length :: comps ++
  enc16 (encode_exts exts).length ++ encode_exts exts

/-- A server_name extension carrying the single host name `name`. -/
def sni_ext (name : List Nat) : Extension := ⟨0, sni_body (name.length + 3) 0 name []⟩

/-- A ClientHello with an empty session id, one cipher suite, one compression method and one
server_name extension. -/
def hello_with_sni (rec_len : Nat) (name : List Nat) : List Nat :=
  client_hello rec_len [] [0xc0, 0x2f] [0] [sni_ext name]

/-- A little-endian build on which plain `char` is unsigned. -/
def host_unsigned : Host := ⟨false, true⟩

/-- A little-endian build on which plain `char` is signed. -/
def host_signed : Host := ⟨true, true⟩

/-- UDP payload of a 1358-byte datagram: "CHLO" at 30, tag count bytes 01 01, a first table
entry with tag "AAAA" and end-offset bytes 01 00 00 01, a second entry with tag "SNI\0" and
end offset 0. -/
def quic_bad : Nat → Nat :=
  mem2 [] 30 [67, 72, 76, 79, 1, 1, 0, 0, 65, 65, 65, 65, 1, 0, 0, 1, 83, 78, 73, 0, 0, 0, 0, 0]


/-- UDP payload of a 1358-byte datagram: "CHLO" at 30, tag count bytes 01 01, nothing but
zero bytes after them. -/
def quic_long : Nat → Nat := mem2 [] 30 [67, 72, 76, 79, 1, 1]

/-- UDP payload of a 1358-byte datagram, for a little-endian host: "CHLO" at 30, tag
count 1, one table entry with tag "SNI\0" and end offset 15, and the value
"api.example.com" from index 46. -/
def quic_hello : Nat → Nat :=
  mem2 [] 30 [67, 72, 76, 79, 1, 0, 0, 0, 83, 78, 73, 0, 15, 0, 0, 0,
    97, 112, 105, 46, 101, 120, 97, 109, 112, 108, 101, 46, 99, 111, 109]

/-- A packet whose UDP length field is `udp_len` and whose UDP payload memory is `data`. -/
def udp_packet (version protocol nexthdr udp_len : Nat) (data : Nat → Nat) : sk_buff :=
  ⟨version, protocol, nexthdr, mem [], 0, udp_len, data⟩

/-- A packet whose transport payload, read as TCP payload, is `payload`. -/
def tcp_packet (version protocol nexthdr : Nat) (payload : List Nat) : sk_buff :=
  ⟨version, protocol, nexthdr, mem payload, payload.length, 0, mem []⟩

/-- The bytes of "api.example.com". -/
def api_example_com : List Nat :=
  [97, 112, 105, 46, 101, 120, 97, 109, 112, 108, 101, 46, 99, 111, 109]

/-- The bytes of "*.example.com". -/
def star_example_com : List Nat := [42, 46, 101, 120, 97, 109, 112, 108, 101, 46, 99, 111, 109]

/-- A build environment whose `XT_TLS_OP_HOST` is bit 0 and whose `glob_match` accepts the
pattern "*.example.com" for the text "api.example.com" (and nothing else). -/
def ext_example : Ext :=
  ⟨1, fun pat text => decide (pat = star_example_com ∧ text = api_example_com)⟩

/-- The four bytes the tag comparison of `get_quic_hostname` accepts: 'S', 'N', 'I' and the
terminating zero of the literal. -/
def SNI_TAG : List Nat := [83, 78, 73, 0]

/-- The bytes of "CHLO". -/
def CHLO_TAG : List Nat := [67, 72, 76, 79]

/-- Packet memory that is zero below index `k`, holds `far` from `k` on and the byte `fill`
after it. -/
def mem_fill (k : Nat) (far : List Nat) (fill : Nat) : Nat → Nat :=
  fun i => if i < k then 0 else far.getD (i - k) fill

/-- The indices of the four header bytes of each extension of `pre`, when the first one
starts at offset `eo` of the block at `offset`. -/
def ext_hdrs (offset : Nat) : Nat → List Extension → List Nat
  | _, [] => []
  | eo, e :: es =>
    [offset + eo, offset + eo + 1, offset + eo + 2, offset + eo + 3] ++
      ext_hdrs offset (eo + 4 + e.body.length) es

/-- Bytes of a ClientHello record with an empty session id, one cipher suite and one
compression method, whose extensions block is the given bytes. -/
def hello_raw_exts (rec_len : Nat) (ext_bytes : List Nat) : List Nat :=
  [0x16, 3, 1] ++ enc16 rec_len ++ [1, 0] ++ enc16 (rec_len - 4) ++ [3, 3] ++
  List.replicate 32 0 ++ [0, 0, 2, 0xc0, 0x2f, 1, 0] ++ enc16 ext_bytes.length ++ ext_bytes

/-- An extensions block with an extension of type 23, then an extension of type 0 whose
length field says 0 and whose list length says 65535, with name_len 4 and the name "a.io",
then a well-formed server_name extension for "b.io". -/
def two_sni_block : List Nat :=
  [0, 23, 0, 0] ++
  [0, 0, 0, 0, 0xFF, 0xFF, 0, 0, 4, 97, 46, 105, 111] ++
  [0, 0, 0, 9, 0, 7, 0, 0, 4, 98, 46, 105, 111]

/-- Payload memory holding the 82-byte ClientHello record whose extensions block is
`two_sni_block`. -/
def two_sni_hello : Nat → Nat := mem (hello_raw_exts 77 two_sni_block)

/-- UDP payload of a 1358-byte datagram, for a little-endian host: "CHLO" at 30, tag
count 2, a first entry "PAD\0" with end offset 5, a second entry "SNI\0" with end offset
20, then from index 54 five padding bytes and "api.example.com". -/
def quic_two : Nat → Nat :=
  mem_fill 30 ([67, 72, 76, 79, 2, 0, 0, 0, 80, 65, 68, 0, 5, 0, 0, 0, 83, 78, 73, 0, 20, 0, 0, 0,
    1, 2, 3, 4, 5] ++ [97, 112, 105, 46, 101, 120, 97, 109, 112, 108, 101, 46, 99, 111, 109]) 0

/-- UDP payload of a 1358-byte datagram, for a little-endian host: "CHLO" at 30, tag-count
bytes 02 00, two entries "PAD\0" and then, at index 54, the bytes of a third entry
"SNI\0" with end offset 4. -/
def quic_third : Nat → Nat :=
  mem_fill 30 [67, 72, 76, 79, 2, 0, 0, 0, 80, 65, 68, 0, 0, 0, 0, 0, 80, 65, 68, 0, 0, 0, 0, 0,
    83, 78, 73, 0, 4, 0, 0, 0, 97, 46, 105, 111] 0

/-- Payload memory holding a ClientHello with the server name "test" whose record length
field holds 65531 (bytes FF FB): a record of 65536 bytes of which the payload holds the
beginning. -/
def hello_len_fffb : Nat → Nat := mem (hello_with_sni 65531 [116, 101, 115, 116])

/-- Payload memory holding the same ClientHello with 65530 (bytes FF FA) in the record
length field. -/
def hello_len_fffa : Nat → Nat := mem (hello_with_sni 65530 [116, 101, 115, 116])


/-! Lemmas -/

/-- A stored byte is below 256. -/
theorem u8_lt (data : Nat → Nat) (i : Nat) : u8 data i < 256 := Nat.mod_lt _ (by decide)

/-- Reading a byte through `char` and storing it in a `u_int8_t` gives the byte back. -/
theorem to_u8_char (h : Host) (b : Nat) (hb : b < 256) : to_u8 (char h b) = b := by
  unfold to_u8 char
  split_ifs <;> omega

/-- A `char` equals a constant below 128 exactly when the stored byte does. -/
theorem char_eq_iff (h : Host) (b : Nat) (hb : b < 256) (k : Nat) (hk : k < 128) :
    char h b = (k : Int) ↔ b = k := by
  unfold char
  split_ifs <;> omega

/-- When every check before the loop passes, the call is the extension walk started at `ext_base`. -/
theorem tls_run_ok (h : Host) (data : Nat → Nat) (data_len : Nat) (hok : hdr_ok h data data_len) :
    get_tls_hostname_data h data data_len =
      (ext_walk data (ext_base h data) (be16 data (ext_base h data))
        (be16 data (ext_base h data)) 2).map (fun r => ⟨r.out, hdr_reads h data ++ r.reads⟩) := by
  obtain ⟨h0, h1, h5, h45, hs, hc, he, hx⟩ := hok
  have c0 : char h (u8 data 0) = 22 := (char_eq_iff h _ (u8_lt _ _) 22 (by decide)).2 h0
  have c5 : to_u8 (char h (u8 data 5)) = 1 := by rw [to_u8_char h _ (u8_lt _ _)]; exact h5
  unfold get_tls_hostname_data
  simp only [session_id_len, cipher_end, ext_base] at hs hc he hx ⊢
  have e1 : ¬ (43 + 2 > data_len) := by omega
  simp only [c0, c5, h1, e1, ne_eq, not_true_eq_false, if_false, if_true]
  rw [if_neg (by omega), if_neg (by omega), if_neg (by omega), if_neg (by omega)]
  rfl

/-- A call either returns EPROTO or passed every check before the loop. -/
theorem tls_run_cases (h : Host) (data : Nat → Nat) (data_len : Nat) :
    (∃ reads, get_tls_hostname_data h data data_len = some ⟨Outcome.eproto, reads⟩) ∨
      hdr_ok h data data_len := by
  by_cases h0 : u8 data 0 = 0x16
  swap
  · left
    have c0 : ¬ char h (u8 data 0) = 22 := fun hc => h0 ((char_eq_iff h _ (u8_lt _ _) 22 (by decide)).1 hc)
    exact ⟨[0], by unfold get_tls_hostname_data; simp [c0]⟩
  have c0 : char h (u8 data 0) = 22 := (char_eq_iff h _ (u8_lt _ _) 22 (by decide)).2 h0
  have c5 : to_u8 (char h (u8 data 5)) = u8 data 5 := to_u8_char h _ (u8_lt _ _)
  unfold hdr_ok
  simp only [session_id_len, cipher_end, ext_base]
  unfold get_tls_hostname_data
  simp only [c0, c5, ne_eq, not_true_eq_false, if_false]
  split_ifs <;> first
    | (left; exact ⟨_, rfl⟩)
    | (right; refine ⟨h0, ?_, ?_, ?_, ?_, ?_, ?_, ?_⟩ <;> first | assumption | omega)

/-- The copy `strncpy` writes has the requested length. -/
theorem strncpy_length (data : Nat → Nat) : ∀ n p, (strncpy data p n).1.length = n := by
  intro n
  induction n with
  | zero => intro p; simp [strncpy]
  | succ k ih =>
    intro p
    unfold strncpy
    split_ifs
    · simp
    · simp [ih]

/-- A span has the requested length. -/
theorem span_length (data : Nat → Nat) : ∀ n p, (span data p n).length = n := by
  intro n
  induction n with
  | zero => intro p; simp [span]
  | succ k ih => intro p; simp [span, ih]

/-- A C string is no longer than its buffer. -/
theorem cstr_length_le : ∀ l : List Nat, (cstr l).length ≤ l.length := by
  intro l
  induction l with
  | nil => simp [cstr]
  | cons b bs ih =>
    unfold cstr
    split_ifs
    · simp
    · simp only [List.length_cons]; omega

/-- The bytes written by `strncpy`: the source span cut at its first zero byte, then zero padding. -/
theorem strncpy_eq (data : Nat → Nat) : ∀ n p,
    (strncpy data p n).1 =
      cstr (span data p n) ++ List.replicate (n - (cstr (span data p n)).length) 0 := by
  intro n
  induction n with
  | zero => intro p; simp [strncpy, span, cstr]
  | succ k ih =>
    intro p
    unfold strncpy
    by_cases hz : u8 data p = 0
    · simp [hz, span, cstr]
    · simp only [hz, if_false, span, cstr, List.length_cons, List.cons_append]
      rw [ih (p + 1), Nat.add_sub_add_right]

/-- Reading a C string back from a buffer that holds it followed by a zero byte. -/
theorem cstr_append_zero : ∀ (l t : List Nat), cstr (cstr l ++ 0 :: t) = cstr l := by
  intro l
  induction l with
  | nil => intro t; simp [cstr]
  | cons b bs ih =>
    intro t
    by_cases hb : b = 0
    · simp [cstr, hb]
    · simp [cstr, hb, ih]

/-- A buffer that starts with a zero byte holds the empty C string. -/
theorem cstr_replicate_zero (k : Nat) (t : List Nat) : cstr (List.replicate k 0 ++ 0 :: t) = [] := by
  cases k with
  | zero => simp [cstr]
  | succ j => simp [List.replicate_succ, cstr]

/-- The C string in the buffer filled by `strncpy` and terminated is the source span cut at its first zero byte. -/
theorem cstr_strncpy (data : Nat → Nat) (n p : Nat) :
    cstr ((strncpy data p n).1 ++ [0]) = cstr (span data p n) := by
  rw [strncpy_eq, List.append_assoc]
  generalize (n - (cstr (span data p n)).length) = k
  cases k with
  | zero => simpa using cstr_append_zero (span data p n) []
  | succ j =>
    rw [List.replicate_succ, List.cons_append]
    exact cstr_append_zero _ _

/-- A buffer without a zero byte is its own C string. -/
theorem cstr_of_no_zero : ∀ l : List Nat, (∀ b ∈ l, b ≠ 0) → cstr l = l := by
  intro l
  induction l with
  | nil => intro _; rfl
  | cons b bs ih =>
    intro hl
    have hb : b ≠ 0 := hl b (List.mem_cons_self _ _)
    simp [cstr, hb, ih (fun c hc => hl c (List.mem_cons_of_mem _ hc))]

/-- A successful walk found an extension of type 0 at some offset `e` and copied from behind its name-length field. -/
theorem ext_walk_ok (data : Nat → Nat) (offset el : Nat) :
    ∀ fuel eo w dest, ext_walk data offset el fuel eo = some w → w.out = Outcome.ok dest →
      ∃ e, eo ≤ e ∧ e < el ∧ be16 data (offset + e) = 0 ∧
        dest = (strncpy data (offset + (e + 9)) (be16 data (offset + (e + 7)))).1 ++ [0] := by
  intro fuel
  induction fuel with
  | zero =>
    intro eo w dest hw hout
    unfold ext_walk at hw
    split_ifs at hw
    cases hw
    cases hout
  | succ n ih =>
    intro eo w dest hw hout
    unfold ext_walk at hw
    by_cases hlt : eo < el
    · simp only [hlt, if_true] at hw
      by_cases hid : be16 data (offset + eo) = 0
      · simp only [hid, if_true] at hw
        cases hw
        cases hout
        exact ⟨eo, le_refl _, hlt, hid, rfl⟩
      · simp only [hid, if_false] at hw
        cases hrec : ext_walk data offset el n (eo + 4 + be16 data (offset + (eo + 2))) with
        | none => rw [hrec] at hw; cases hw
        | some w' =>
          rw [hrec] at hw
          cases hw
          obtain ⟨e, he1, he2, he3, he4⟩ := ih _ w' dest hrec hout
          exact ⟨e, by omega, he2, he3, he4⟩
    · simp only [hlt, if_false] at hw
      cases hw
      cases hout

/-- The extension walk never faults. -/
theorem ext_walk_no_fault (data : Nat → Nat) (offset el : Nat) :
    ∀ fuel eo w, ext_walk data offset el fuel eo = some w → w.out ≠ Outcome.fault := by
  intro fuel
  induction fuel with
  | zero =>
    intro eo w hw
    unfold ext_walk at hw
    split_ifs at hw
    cases hw
    simp
  | succ n ih =>
    intro eo w hw
    unfold ext_walk at hw
    by_cases hlt : eo < el
    · simp only [hlt, if_true] at hw
      by_cases hid : be16 data (offset + eo) = 0
      · simp only [hid, if_true] at hw
        cases hw
        simp
      · simp only [hid, if_false] at hw
        cases hrec : ext_walk data offset el n (eo + 4 + be16 data (offset + (eo + 2))) with
        | none => rw [hrec] at hw; cases hw
        | some w' =>
          rw [hrec] at hw
          cases hw
          exact ih _ w' hrec
    · simp only [hlt, if_false] at hw
      cases hw
      simp

/-- A span that equals `b :: l` has `b` as its first byte. -/
theorem span_cons_eq (data : Nat → Nat) (p b : Nat) (l : List Nat)
    (hs : span data p (b :: l).length = b :: l) :
    u8 data p = b ∧ span data (p + 1) l.length = l := by
  simpa [span] using hs

/-- A span that equals `a ++ b` splits into the two spans. -/
theorem span_append_eq (data : Nat → Nat) : ∀ (a : List Nat) (p : Nat) (b : List Nat),
    span data p (a ++ b).length = a ++ b →
      span data p a.length = a ∧ span data (p + a.length) b.length = b := by
  intro a
  induction a with
  | nil => intro p b hs; simpa [span] using hs
  | cons x xs ih =>
    intro p b hs
    obtain ⟨h1, h2⟩ := span_cons_eq data p x (xs ++ b) hs
    obtain ⟨h3, h4⟩ := ih (p + 1) b h2
    refine ⟨by simp [span, h1, h3], ?_⟩
    have : p + (x :: xs).length = p + 1 + xs.length := by simp; omega
    rw [this]; exact h4

/-- A span that starts with the two-byte encoding of `n` decodes to `n`. -/
theorem be16_of_span (data : Nat → Nat) (p n : Nat) (l : List Nat)
    (hs : span data p (enc16 n ++ l).length = enc16 n ++ l) :
    be16 data p = n ∧ span data (p + 2) l.length = l := by
  obtain ⟨h1, h2⟩ := span_cons_eq data p _ _ hs
  obtain ⟨h3, h4⟩ := span_cons_eq data (p + 1) _ _ h2
  refine ⟨?_, h4⟩
  unfold be16
  rw [h1, h3]
  exact Nat.div_add_mod' n 256

/-- An encoded extension is four bytes longer than its body. -/
theorem encode_length (e : Extension) : e.encode.length = 4 + e.body.length := by
  simp [Extension.encode, enc16]; omega

/-- Every encoded extension takes at least four bytes. -/
theorem encode_exts_length_ge : ∀ l : List Extension, 4 * l.length ≤ (encode_exts l).length := by
  intro l
  induction l with
  | nil => simp [encode_exts]
  | cons e es ih => simp [encode_exts, encode_length]; omega

/-- Once the offset has reached the block length the walk returns EPROTO, with any fuel. -/
theorem ext_walk_done (data : Nat → Nat) (offset el fuel eo : Nat) (hge : ¬ eo < el) :
    ext_walk data offset el fuel eo = some ⟨Outcome.eproto, []⟩ := by
  cases fuel <;> simp [ext_walk, hge]

/-- The walk passes over a run of extensions none of which has type 0. -/
theorem ext_walk_skip (data : Nat → Nat) (offset el : Nat) :
    ∀ (pre : List Extension) (fuel eo : Nat) (tail : List Nat),
      span data (offset + eo) (encode_exts pre ++ tail).length = encode_exts pre ++ tail →
      (∀ e ∈ pre, e.id ≠ 0) → eo + (encode_exts pre).length ≤ el + 2 →
      (ext_walk data offset el (pre.length + fuel) eo).map Run.out =
        (ext_walk data offset el fuel (eo + (encode_exts pre).length)).map Run.out := by
  intro pre
  induction pre with
  | nil => intro fuel eo tail _ _ _; simp [encode_exts]
  | cons e es ih =>
    intro fuel eo tail hs hid hle
    have hlen : (encode_exts (e :: es)).length = 4 + e.body.length + (encode_exts es).length := by
      simp [encode_exts, encode_length]
    have hs' : span data (offset + eo)
        (enc16 e.id ++ (enc16 e.body.length ++ (e.body ++ (encode_exts es ++ tail)))).length =
        enc16 e.id ++ (enc16 e.body.length ++ (e.body ++ (encode_exts es ++ tail))) := by
      simpa [encode_exts, Extension.encode, List.append_assoc] using hs
    obtain ⟨h1, h2⟩ := be16_of_span data _ _ _ hs'
    obtain ⟨h3, h4⟩ := be16_of_span data _ _ _ h2
    obtain ⟨_, h5⟩ := span_append_eq data _ _ _ h4
    have hlt : eo < el := by omega
    have hne : ¬ be16 data (offset + eo) = 0 := by
      rw [h1]; exact hid e (List.mem_cons_self _ _)
    have h3' : be16 data (offset + (eo + 2)) = e.body.length := by
      rw [← h3]; congr 1
    have hfuel : (e :: es).length + fuel = (es.length + fuel) + 1 := by simp; omega
    rw [hfuel]
    conv_lhs => unfold ext_walk
    simp only [hlt, hne, if_true, if_false, h3', Option.map_map]
    have hpos : offset + eo + 2 + 2 + e.body.length = offset + (eo + 4 + e.body.length) := by omega
    rw [hpos] at h5
    have := ih fuel (eo + 4 + e.body.length) tail h5
      (fun x hx => hid x (List.mem_cons_of_mem _ hx)) (by omega)
    rw [hlen]
    have hpos2 : eo + (4 + e.body.length + (encode_exts es).length) =
        eo + 4 + e.body.length + (encode_exts es).length := by omega
    rw [hpos2, ← this]
    cases ext_walk data offset el (es.length + fuel) (eo + 4 + e.body.length) <;> rfl

/-- A length byte read through `char` into a `u_int16_t` is unchanged unless `char` is signed and the byte is 128 or more. -/
theorem to_u16_char_small (h : Host) (b : Nat) (hb : b < 256)
    (hs : h.char_signed = true → b < 128) : to_u16 (char h b) = b := by
  unfold to_u16 char
  split_ifs with hc
  · have := hs hc.1; omega
  · omega

/-- Under the RFC layout the code's offsets are the RFC's. -/
theorem layout_aligned (h : Host) (data : Nat → Nat) (s c m : Nat)
    (hs : u8 data 43 = s) (hc : be16 data (44 + s) = c) (hm : u8 data (46 + s + c) = m)
    (hchar : h.char_signed = true → s < 128 ∧ m < 128) :
    session_id_len h data = s ∧ cipher_end h data = 45 + s + c ∧
      ext_base h data = 47 + s + c + m := by
  have e1 : session_id_len h data = s := by
    unfold session_id_len
    rw [hs]
    exact to_u16_char_small h s (hs ▸ u8_lt data 43) (fun x => (hchar x).1)
  have e2 : cipher_end h data = 45 + s + c := by
    unfold cipher_end
    rw [e1, show 43 + s + 1 = 44 + s by omega, hc]
    omega
  refine ⟨e1, e2, ?_⟩
  unfold ext_base
  rw [e2, show 45 + s + c + 1 = 46 + s + c by omega, hm,
    to_u16_char_small h m (hm ▸ u8_lt data _) (fun x => (hchar x).2)]
  omega

/-- The record bound is the record length plus 5 when that fits 16 bits, lies inside the payload and `payload[4]` is not sign-extended. -/
theorem tls_header_len_exact (h : Host) (data : Nat → Nat) (data_len : Nat)
    (hrec : be16 data 3 + 5 < 65536) (hle : be16 data 3 + 5 ≤ data_len)
    (hchar : h.char_signed = true → u8 data 4 < 128) :
    tls_header_len h data data_len = be16 data 3 + 5 := by
  have h3 := u8_lt data 3
  have h4 := u8_lt data 4
  have hb : be16 data 3 = u8 data 3 * 256 + u8 data 4 := rfl
  rw [hb] at hrec hle ⊢
  have hraw : to_u16 (char h (u8 data 3) * 256 + char h (u8 data 4) + 5) =
      u8 data 3 * 256 + u8 data 4 + 5 := by
    unfold to_u16 char
    by_cases hs : h.char_signed = true
    · have := hchar hs
      split_ifs <;> omega
    · split_ifs <;> first | omega | tauto
  unfold tls_header_len
  simp only [hraw]
  rw [if_neg (by omega)]

/-- Encoding distributes over concatenation. -/
theorem encode_exts_append : ∀ (a b : List Extension),
    encode_exts (a ++ b) = encode_exts a ++ encode_exts b := by
  intro a b
  induction a with
  | nil => rfl
  | cons x xs ih => simp [encode_exts, ih]

/-- Copying a name without zero bytes yields the name. -/
theorem strncpy_of_no_zero (data : Nat → Nat) (p : Nat) (name : List Nat)
    (hs : span data p name.length = name) (hname : ∀ b ∈ name, b ≠ 0) :
    (strncpy data p name.length).1 = name := by
  rw [strncpy_eq, hs, cstr_of_no_zero name hname]
  simp

/-- The iteration that meets a server_name extension returns its first name. -/
theorem ext_walk_sni (data : Nat → Nat) (offset el fuel eo : Nat)
    (list_len name_type : Nat) (name rest tail : List Nat)
    (hs : span data (offset + eo)
      ((Extension.mk 0 (sni_body list_len name_type name rest)).encode ++ tail).length =
      (Extension.mk 0 (sni_body list_len name_type name rest)).encode ++ tail)
    (hlt : eo < el) (hname : ∀ b ∈ name, b ≠ 0) :
    (ext_walk data offset el (fuel + 1) eo).map Run.out = some (Outcome.ok (name ++ [0])) := by
  have hs' : span data (offset + eo)
      (enc16 0 ++ (enc16 (sni_body list_len name_type name rest).length ++
        (enc16 list_len ++ (name_type :: (enc16 name.length ++ (name ++ (rest ++ tail))))))).length =
      enc16 0 ++ (enc16 (sni_body list_len name_type name rest).length ++
        (enc16 list_len ++ (name_type :: (enc16 name.length ++ (name ++ (rest ++ tail)))))) := by
    simpa [Extension.encode, sni_body, List.append_assoc] using hs
  obtain ⟨h1, h2⟩ := be16_of_span data _ _ _ hs'
  obtain ⟨_, h3⟩ := be16_of_span data _ _ _ h2
  obtain ⟨_, h4⟩ := be16_of_span data _ _ _ h3
  obtain ⟨_, h5⟩ := span_cons_eq data _ _ _ h4
  obtain ⟨h6, h7⟩ := be16_of_span data _ _ _ h5
  obtain ⟨h8, _⟩ := span_append_eq data _ _ _ h7
  have p7 : offset + eo + 2 + 2 + 2 + 1 = offset + (eo + 7) := by omega
  have p9 : offset + eo + 2 + 2 + 2 + 1 + 2 = offset + (eo + 9) := by omega
  rw [p7] at h6
  rw [p9] at h8
  unfold ext_walk
  simp only [hlt, h1, h6, if_true, Option.map_some']
  rw [strncpy_of_no_zero data _ name h8 hname]

/-- The walk of a well-formed block stops at the first extension of type 0 and returns its name. -/
theorem tls_sni_found (h : Host) (data : Nat → Nat) (data_len s c m : Nat)
    (pre post : List Extension) (list_len name_type : Nat) (name rest : List Nat)
    (wf : WellFormedClientHello data data_len s c m
      (pre ++ ⟨0, sni_body list_len name_type name rest⟩ :: post))
    (hpre : ∀ e ∈ pre, e.id ≠ 0) (hname : ∀ b ∈ name, b ≠ 0)
    (hrec : be16 data 3 + 5 < 65536)
    (hchar : h.char_signed = true → u8 data 4 < 128 ∧ s < 128 ∧ m < 128) :
    ∃ reads, get_tls_hostname_data h data data_len = some ⟨Outcome.ok (name ++ [0]), reads⟩ := by
  obtain ⟨w0, w5, ws, wc, wm, wel, wsp, wrec, wlen⟩ := wf
  obtain ⟨a1, a2, a3⟩ := layout_aligned h data s c m ws wc wm (fun x => (hchar x).2)
  have hthl := tls_header_len_exact h data data_len hrec wlen (fun x => (hchar x).1)
  set sni : Extension := ⟨0, sni_body list_len name_type name rest⟩ with hsni
  have hlen : (encode_exts (pre ++ sni :: post)).length =
      (encode_exts pre).length + (4 + (5 + name.length + rest.length) + (encode_exts post).length) := by
    have : ∀ (a b : List Extension), encode_exts (a ++ b) = encode_exts a ++ encode_exts b := by
      intro a b
      induction a with
      | nil => rfl
      | cons x xs ih => simp [encode_exts, ih]
    rw [this]
    simp [encode_exts, encode_length, hsni, sni_body, enc16]
    omega
  have hok : hdr_ok h data data_len := by
    unfold hdr_ok
    rw [hthl, a1, a2, a3, wel]
    refine ⟨w0, ?_, w5, ?_, ?_, ?_, ?_, ?_⟩ <;> omega
  rw [tls_run_ok h data data_len hok, a3, wel]
  have hwalk : (ext_walk data (47 + s + c + m) (encode_exts (pre ++ sni :: post)).length
      (encode_exts (pre ++ sni :: post)).length 2).map Run.out =
      some (Outcome.ok (name ++ [0])) := by
    have hpl := encode_exts_length_ge pre
    have hsp : span data (47 + s + c + m + 2)
        (encode_exts pre ++ (sni.encode ++ encode_exts post)).length =
        encode_exts pre ++ (sni.encode ++ encode_exts post) := by
      have := wsp
      rw [encode_exts_append] at this
      simpa [encode_exts, show 47 + s + c + m + 2 = 49 + s + c + m by omega] using this
    obtain ⟨_, htail⟩ := span_append_eq data _ _ _ hsp
    have hpos : 47 + s + c + m + 2 + (encode_exts pre).length =
        47 + s + c + m + (2 + (encode_exts pre).length) := by omega
    rw [hpos] at htail
    obtain ⟨k, hk⟩ : ∃ k, (encode_exts (pre ++ sni :: post)).length = pre.length + (k + 1) :=
      ⟨(encode_exts (pre ++ sni :: post)).length - pre.length - 1, by omega⟩
    generalize hel : (encode_exts (pre ++ sni :: post)).length = el at hk hlen ⊢
    nth_rewrite 2 [hk]
    rw [ext_walk_skip data _ el pre _ 2 (sni.encode ++ encode_exts post) hsp hpre (by omega)]
    exact ext_walk_sni data _ _ _ _ list_len name_type name rest (encode_exts post) htail
      (by omega) hname
  cases hw : ext_walk data (47 + s + c + m) (encode_exts (pre ++ sni :: post)).length
      (encode_exts (pre ++ sni :: post)).length 2 with
  | none => rw [hw] at hwalk; cases hwalk
  | some w =>
    rw [hw] at hwalk
    simp only [Option.map_some', Option.some.injEq] at hwalk
    exact ⟨hdr_reads h data ++ w.reads, by simp only [Option.map_some', hwalk]⟩



/-- A well-formed ClientHello without an extension of type 0 is rejected, on every build
that does not sign-extend the two length bytes. -/
theorem tls_no_sni_rejected (h : Host) (data : Nat → Nat) (data_len s c m : Nat)
    (exts : List Extension) (wf : WellFormedClientHello data data_len s c m exts)
    (hno : ∀ e ∈ exts, e.id ≠ 0)
    (hchar : h.char_signed = true → s < 128 ∧ m < 128) :
    ∃ reads, get_tls_hostname_data h data data_len = some ⟨Outcome.eproto, reads⟩ := by
  rcases tls_run_cases h data data_len with hr | hhdr
  · exact hr
  · obtain ⟨_, _, ws, wc, wm, wel, wsp, _, _⟩ := wf
    obtain ⟨_, _, a3⟩ := layout_aligned h data s c m ws wc wm hchar
    rw [tls_run_ok h data data_len hhdr, a3, wel]
    have hpl := encode_exts_length_ge exts
    have hsp : span data (47 + s + c + m + 2) (encode_exts exts ++ []).length =
        encode_exts exts ++ [] := by
      simpa [show 47 + s + c + m + 2 = 49 + s + c + m by omega] using wsp
    obtain ⟨k, hk⟩ : ∃ k, (encode_exts exts).length = exts.length + k :=
      ⟨(encode_exts exts).length - exts.length, by omega⟩
    have hwalk : (ext_walk data (47 + s + c + m) (encode_exts exts).length
        (encode_exts exts).length 2).map Run.out = some Outcome.eproto := by
      generalize hel : (encode_exts exts).length = el at hk hsp ⊢
      nth_rewrite 2 [hk]
      have hsp' : span data (47 + s + c + m + 2) (encode_exts exts ++ []).length =
          encode_exts exts ++ [] := by
        simpa [hel] using hsp
      rw [ext_walk_skip data _ el exts k 2 [] hsp' hno (by omega),
        ext_walk_done data _ _ _ _ (by omega)]
      rfl
    cases hw : ext_walk data (47 + s + c + m) (encode_exts exts).length
        (encode_exts exts).length 2 with
    | none => rw [hw] at hwalk; cases hwalk
    | some w =>
      rw [hw] at hwalk
      simp only [Option.map_some', Option.some.injEq] at hwalk
      exact ⟨hdr_reads h data ++ w.reads, by simp only [Option.map_some', hwalk]⟩

/-- The fuel `get_tls_hostname_data` gives the loop is enough. -/
theorem ext_walk_fuel (data : Nat → Nat) (offset el : Nat) :
    ∀ fuel eo, el ≤ fuel + eo → ∃ r, ext_walk data offset el fuel eo = some r := by
  intro fuel
  induction fuel with
  | zero =>
    intro eo h
    have : ¬ eo < el := by omega
    simp [ext_walk, this]
  | succ n ih =>
    intro eo h
    unfold ext_walk
    by_cases hlt : eo < el
    · simp only [hlt, if_true]
      by_cases hid : be16 data (offset + eo) = 0
      · simp [hid]
      · simp only [hid, if_false]
        obtain ⟨r, hr⟩ := ih (eo + 4 + be16 data (offset + (eo + 2))) (by omega)
        simp [hr]
    · simp [hlt]

/-- The call always returns: the fuel never runs out. -/
theorem get_tls_hostname_data_total (h : Host) (data : Nat → Nat) (data_len : Nat) :
    ∃ r, get_tls_hostname_data h data data_len = some r := by
  unfold get_tls_hostname_data
  simp only []
  split_ifs <;> try exact ⟨_, rfl⟩
  rename_i h1 h2 h3 h4 h5 h6 h7 h8
  obtain ⟨r, hr⟩ := ext_walk_fuel data _ (be16 data _) (be16 data _) 2 (Nat.le_add_right _ 2)
  exact ⟨_, by rw [hr]; rfl⟩

/-- The parser call `tls_mt` makes, if any, does not depend on the rule; the verdict is
`mt_finish` of its outcome. -/
theorem tls_mt_dispatch (h : Host) (x : Ext) (proto_uninit : Int) (skb : sk_buff) :
    ∃ res : Option (Parser × Outcome), ∀ info : xt_tls_info,
      tls_mt h x proto_uninit skb info = some (match res with
        | none => ⟨some false, none⟩
        | some po => mt_finish x info (decide (info.invert &&& x.XT_TLS_OP_HOST ≠ 0)) po.1 po.2) := by
  obtain ⟨r, hr⟩ := get_tls_hostname_data_total h skb.tcp_data skb.tcp_data_len
  have aux : ∀ proto : Int, ∃ res : Option (Parser × Outcome), ∀ info : xt_tls_info,
      (if proto = IPPROTO_TCP then
        (get_tls_hostname h skb).map (fun r =>
          mt_finish x info (decide (info.invert &&& x.XT_TLS_OP_HOST ≠ 0)) Parser.tls r.out)
      else if proto = IPPROTO_UDP then
        some (mt_finish x info (decide (info.invert &&& x.XT_TLS_OP_HOST ≠ 0)) Parser.quic
          (get_quic_hostname h skb).out)
      else some ⟨some false, none⟩) = some (match res with
        | none => ⟨some false, none⟩
        | some po => mt_finish x info (decide (info.invert &&& x.XT_TLS_OP_HOST ≠ 0)) po.1 po.2) := by
    intro proto
    by_cases ht : proto = IPPROTO_TCP
    · refine ⟨some (Parser.tls, r.out), fun info => ?_⟩
      rw [if_pos ht]
      unfold get_tls_hostname
      rw [hr]
      rfl
    · by_cases hu : proto = IPPROTO_UDP
      · refine ⟨some (Parser.quic, (get_quic_hostname h skb).out), fun info => ?_⟩
        rw [if_neg ht, if_pos hu]
      · refine ⟨none, fun info => ?_⟩
        rw [if_neg ht, if_neg hu]
  unfold tls_mt
  by_cases h4 : skb.version = 4
  · obtain ⟨res, hres⟩ := aux (skb.protocol : Int)
    exact ⟨res, fun info => by rw [if_pos h4]; exact hres info⟩
  · by_cases h6 : skb.version = 6
    · exact ⟨none, fun info => by rw [if_neg h4, if_pos h6]⟩
    · obtain ⟨res, hres⟩ := aux proto_uninit
      exact ⟨res, fun info => by rw [if_neg h4, if_neg h6]; exact hres info⟩

/-- The comparison with "CHLO" succeeds exactly on those four bytes. -/
theorem strncmp_chlo (data : Nat → Nat) (p : Nat) :
    (strncmp_eq data p [67, 72, 76, 79]).1 = true ↔ span data p 4 = CHLO_TAG := by
  simp only [strncmp_eq, span, CHLO_TAG]
  split_ifs <;> simp_all

/-- The four-byte comparison with "SNI" succeeds exactly on 'S', 'N', 'I', 0. -/
theorem strncmp_sni (data : Nat → Nat) (p : Nat) :
    (strncmp_eq data p [83, 78, 73, 0]).1 = true ↔ span data p 4 = SNI_TAG := by
  simp only [strncmp_eq, span, SNI_TAG]
  split_ifs <;> simp_all

/-- A tag walk that does not end in EPROTO met an entry with the SNI tag. -/
theorem tag_walk_not_eproto (h : Host) (data : Nat → Nat) (offset tag_number : Nat) :
    ∀ n tag_offset prev, (tag_walk h data offset tag_number n tag_offset prev).out ≠ Outcome.eproto →
      ∃ j, j < n ∧ span data (offset + (tag_offset + 8 * j)) 4 = SNI_TAG := by
  intro n
  induction n with
  | zero => intro toff prev hne; exact absurd rfl hne
  | succ n ih =>
    intro toff prev hne
    by_cases hm : (strncmp_eq data (offset + toff) [83, 78, 73, 0]).1 = true
    · exact ⟨0, Nat.succ_pos n, by simpa using (strncmp_sni data _).1 hm⟩
    · have hrec : (tag_walk h data offset tag_number (n + 1) toff prev).out =
          (tag_walk h data offset tag_number n (toff + 8)
            (host32 h data (offset + (toff + 4)))).out := by
        simp only [tag_walk, hm]
        rfl
      rw [hrec] at hne
      obtain ⟨j, hj, hs⟩ := ih _ _ hne
      exact ⟨j + 1, by omega, by
        rw [show toff + 8 * (j + 1) = toff + 8 + 8 * j by omega]; exact hs⟩

/-- An IPv4 packet whose protocol is neither TCP nor UDP is answered with false without a
parser call. -/
theorem tls_mt_ipv4_other_protocol (h : Host) (x : Ext) (proto_uninit : Int) (skb : sk_buff)
    (info : xt_tls_info) (hv : skb.version = 4) (ht : skb.protocol ≠ 6) (hu : skb.protocol ≠ 17) :
    tls_mt h x proto_uninit skb info = some ⟨some false, none⟩ := by
  have nt : ¬ (skb.protocol : Int) = IPPROTO_TCP := by unfold IPPROTO_TCP; omega
  have nu : ¬ (skb.protocol : Int) = IPPROTO_UDP := by unfold IPPROTO_UDP; omega
  unfold tls_mt
  simp only [hv, if_true, nt, nu, if_false]

/-- A packet whose version is neither 4 nor 6 is answered with false without a parser call
when the value found in the unassigned `proto` is neither 6 nor 17. -/
theorem tls_mt_other_version (h : Host) (x : Ext) (proto_uninit : Int) (skb : sk_buff)
    (info : xt_tls_info) (h4 : skb.version ≠ 4) (h6 : skb.version ≠ 6)
    (ht : proto_uninit ≠ 6) (hu : proto_uninit ≠ 17) :
    tls_mt h x proto_uninit skb info = some ⟨some false, none⟩ := by
  have nt : ¬ proto_uninit = IPPROTO_TCP := ht
  have nu : ¬ proto_uninit = IPPROTO_UDP := hu
  unfold tls_mt
  simp only [h4, h6, if_false, nt, nu]

/-- The record bound never exceeds the payload length. -/
theorem tls_header_len_le (h : Host) (data : Nat → Nat) (data_len : Nat) :
    tls_header_len h data data_len ≤ data_len := by
  unfold tls_header_len
  simp only []
  split_ifs with hgt
  · exact Nat.mod_le _ _
  · omega

/-- A two-byte big-endian value is below 65536. -/
theorem be16_lt (data : Nat → Nat) (i : Nat) : be16 data i < 65536 := by
  have h1 := u8_lt data i
  have h2 := u8_lt data (i + 1)
  unfold be16
  omega

/-- The loop ends within `fuel` iterations when four times the fuel covers the distance to
the end of the block. -/
theorem ext_walk_fuel4 (data : Nat → Nat) (offset el : Nat) :
    ∀ fuel eo, el ≤ eo + 4 * fuel → ∃ r, ext_walk data offset el fuel eo = some r := by
  intro fuel
  induction fuel with
  | zero =>
    intro eo h
    have : ¬ eo < el := by omega
    simp [ext_walk, this]
  | succ n ih =>
    intro eo h
    unfold ext_walk
    by_cases hlt : eo < el
    · simp only [hlt, if_true]
      by_cases hid : be16 data (offset + eo) = 0
      · simp [hid]
      · simp only [hid, if_false]
        obtain ⟨r, hr⟩ := ih (eo + 4 + be16 data (offset + (eo + 2))) (by omega)
        simp [hr]
    · simp [hlt]

/-- More fuel does not change a result. -/
theorem ext_walk_fuel_mono (data : Nat → Nat) (offset el : Nat) :
    ∀ fuel eo r, ext_walk data offset el fuel eo = some r →
      ∀ k, ext_walk data offset el (fuel + k) eo = some r := by
  intro fuel
  induction fuel with
  | zero =>
    intro eo r hr k
    unfold ext_walk at hr
    split_ifs at hr with hlt
    rw [← hr]
    exact ext_walk_done data offset el _ eo hlt
  | succ n ih =>
    intro eo r hr k
    rw [show n + 1 + k = (n + k) + 1 by omega]
    unfold ext_walk at hr ⊢
    by_cases hlt : eo < el
    · simp only [hlt, if_true] at hr ⊢
      by_cases hid : be16 data (offset + eo) = 0
      · simp only [hid, if_true] at hr ⊢
        exact hr
      · simp only [hid, if_false] at hr ⊢
        cases hrec : ext_walk data offset el n (eo + 4 + be16 data (offset + (eo + 2))) with
        | none => rw [hrec] at hr; cases hr
        | some w =>
          rw [hrec] at hr
          rw [ih _ w hrec k]
          exact hr
    · simp only [hlt, if_false] at hr ⊢
      exact hr

/-- The walk over a run of extensions without type 0, with the indices it reads. -/
theorem ext_walk_skip_run (data : Nat → Nat) (offset el : Nat) :
    ∀ (pre : List Extension) (fuel eo : Nat) (tail : List Nat),
      span data (offset + eo) (encode_exts pre ++ tail).length = encode_exts pre ++ tail →
      (∀ e ∈ pre, e.id ≠ 0) → eo + (encode_exts pre).length ≤ el + 2 →
      ext_walk data offset el (pre.length + fuel) eo =
        (ext_walk data offset el fuel (eo + (encode_exts pre).length)).map
          (fun r => ⟨r.out, ext_hdrs offset eo pre ++ r.reads⟩) := by
  intro pre
  induction pre with
  | nil =>
    intro fuel eo tail _ _ _
    simp only [encode_exts, List.length_nil, Nat.zero_add, Nat.add_zero, ext_hdrs, List.nil_append]
    cases ext_walk data offset el fuel eo <;> rfl
  | cons e es ih =>
    intro fuel eo tail hs hid hle
    have hlen : (encode_exts (e :: es)).length = 4 + e.body.length + (encode_exts es).length := by
      simp [encode_exts, encode_length]
    have hs' : span data (offset + eo)
        (enc16 e.id ++ (enc16 e.body.length ++ (e.body ++ (encode_exts es ++ tail)))).length =
        enc16 e.id ++ (enc16 e.body.length ++ (e.body ++ (encode_exts es ++ tail))) := by
      simpa [encode_exts, Extension.encode, List.append_assoc] using hs
    obtain ⟨h1, h2⟩ := be16_of_span data _ _ _ hs'
    obtain ⟨h3, h4⟩ := be16_of_span data _ _ _ h2
    obtain ⟨_, h5⟩ := span_append_eq data _ _ _ h4
    have hlt : eo < el := by omega
    have hne : ¬ be16 data (offset + eo) = 0 := by
      rw [h1]; exact hid e (List.mem_cons_self _ _)
    have h3' : be16 data (offset + (eo + 2)) = e.body.length := by
      rw [← h3]; congr 1
    have hfuel : (e :: es).length + fuel = (es.length + fuel) + 1 := by simp; omega
    rw [hfuel]
    conv_lhs => unfold ext_walk
    simp only [hlt, hne, if_true, if_false, h3']
    have hpos : offset + eo + 2 + 2 + e.body.length = offset + (eo + 4 + e.body.length) := by omega
    rw [hpos] at h5
    have := ih fuel (eo + 4 + e.body.length) tail h5
      (fun x hx => hid x (List.mem_cons_of_mem _ hx)) (by omega)
    rw [this, hlen]
    have hpos2 : eo + (4 + e.body.length + (encode_exts es).length) =
        eo + 4 + e.body.length + (encode_exts es).length := by omega
    rw [hpos2]
    cases ext_walk data offset el fuel (eo + 4 + e.body.length + (encode_exts es).length) with
    | none => rfl
    | some w => simp [ext_hdrs]

/-- Extension headers lie before the end of their extensions. -/
theorem ext_hdrs_lt (offset : Nat) : ∀ (pre : List Extension) (eo i : Nat),
    i ∈ ext_hdrs offset eo pre → i < offset + eo + (encode_exts pre).length := by
  intro pre
  induction pre with
  | nil => intro eo i hi; simp [ext_hdrs] at hi
  | cons e es ih =>
    intro eo i hi
    have hlen : (encode_exts (e :: es)).length = 4 + e.body.length + (encode_exts es).length := by
      simp [encode_exts, encode_length]
    simp only [ext_hdrs, List.mem_append, List.mem_cons, List.mem_singleton, List.not_mem_nil,
      or_false] at hi
    rcases hi with (h | h | h | h) | h
    · omega
    · omega
    · omega
    · omega
    · have := ih _ _ h
      omega

/-- The indices `strncpy` reads lie in the source span. -/
theorem strncpy_reads (data : Nat → Nat) : ∀ n p i,
    i ∈ (strncpy data p n).2 → p ≤ i ∧ i < p + n := by
  intro n
  induction n with
  | zero => intro p i hi; simp [strncpy] at hi
  | succ k ih =>
    intro p i hi
    unfold strncpy at hi
    split_ifs at hi
    · simp at hi; omega
    · simp only [List.mem_cons] at hi
      rcases hi with h | h
      · omega
      · have := ih _ _ h
        omega

/-- The indices read before the loop lie before the first extension. -/
theorem hdr_reads_lt (h : Host) (data : Nat → Nat) (i : Nat) (hi : i ∈ hdr_reads h data) :
    i < ext_base h data + 2 := by
  unfold hdr_reads at hi
  simp only [List.mem_cons, List.mem_singleton, List.not_mem_nil, or_false] at hi
  unfold ext_base cipher_end at *
  omega

/-- A four-byte host-order value is below `2 ^ 32`. -/
theorem host32_lt (h : Host) (data : Nat → Nat) (i : Nat) : host32 h data i < 4294967296 := by
  have h0 := u8_lt data i
  have h1 := u8_lt data (i + 1)
  have h2 := u8_lt data (i + 2)
  have h3 := u8_lt data (i + 3)
  unfold host32
  split_ifs <;> omega

/-- The indices a comparison reads lie in the compared span. -/
theorem strncmp_reads (data : Nat → Nat) : ∀ (lit : List Nat) (p i : Nat),
    i ∈ (strncmp_eq data p lit).2 → p ≤ i ∧ i < p + lit.length := by
  intro lit
  induction lit with
  | nil => intro p i hi; simp [strncmp_eq] at hi
  | cons c cs ih =>
    intro p i hi
    unfold strncmp_eq at hi
    split_ifs at hi
    · simp at hi; simp; omega
    · simp at hi; simp; omega
    · simp only [List.mem_cons] at hi
      rcases hi with hi | hi
      · simp; omega
      · have := ih _ _ hi
        simp only [List.length_cons]
        omega

/-- A matching comparison with "CHLO" reads the four bytes. -/
theorem strncmp_chlo_reads (data : Nat → Nat) (p : Nat) (hc : span data p 4 = CHLO_TAG) :
    strncmp_eq data p [67, 72, 76, 79] = (true, [p, p + 1, p + 2, p + 3]) := by
  simp only [span, CHLO_TAG, List.cons.injEq, and_true] at hc
  obtain ⟨h0, h1, h2, h3⟩ := hc
  simp [strncmp_eq, h0, h1, h2, h3]

/-- With "CHLO" in place the call is the tag walk over `tag_number` entries. -/
theorem quic_run_chlo (h : Host) (data : Nat → Nat) (hc : span data 30 4 = CHLO_TAG) :
    get_quic_hostname_data h 1358 data =
      ⟨(tag_walk h data 38 (host16 h data 34) (host16 h data 34) 0 0).out,
        [30, 31, 32, 33, 34, 35] ++
          (tag_walk h data 38 (host16 h data 34) (host16 h data 34) 0 0).reads⟩ := by
  unfold get_quic_hostname_data
  simp only [ne_eq, not_true_eq_false, if_false, Nat.reduceAdd, strncmp_chlo_reads data 30 hc,
    if_true, List.cons_append, List.nil_append]

/-- One iteration of the tag walk on an entry that is not the SNI tag. -/
theorem tag_walk_step_other (h : Host) (data : Nat → Nat) (offset tag_number n toff prev : Nat)
    (hs : span data (offset + toff) 4 ≠ SNI_TAG) :
    tag_walk h data offset tag_number (n + 1) toff prev =
      ⟨(tag_walk h data offset tag_number n (toff + 8) (host32 h data (offset + (toff + 4)))).out,
        (strncmp_eq data (offset + toff) [83, 78, 73, 0]).2 ++
          [offset + (toff + 4), offset + (toff + 4) + 1, offset + (toff + 4) + 2,
            offset + (toff + 4) + 3] ++
          (tag_walk h data offset tag_number n (toff + 8)
            (host32 h data (offset + (toff + 4)))).reads⟩ := by
  have hm : ¬ (strncmp_eq data (offset + toff) [83, 78, 73, 0]).1 = true :=
    fun hc => hs ((strncmp_sni data _).1 hc)
  simp only [tag_walk, hm]
  rfl

/-- One iteration of the tag walk on an entry with the SNI tag. -/
theorem tag_walk_step_sni (h : Host) (data : Nat → Nat) (offset tag_number n toff prev : Nat)
    (hs : span data (offset + toff) 4 = SNI_TAG) :
    (tag_walk h data offset tag_number (n + 1) toff prev).out =
      if sub_i32 (host32 h data (offset + (toff + 4))) prev < 0 then Outcome.fault
      else if KMALLOC_MAX_SIZE < (sub_i32 (host32 h data (offset + (toff + 4))) prev).toNat + 1 then
        Outcome.fault
      else Outcome.ok ((strncpy data ((offset + tag_number * 8 + prev) % 4294967296)
        (sub_i32 (host32 h data (offset + (toff + 4))) prev).toNat).1 ++ [0]) := by
  have hm : (strncmp_eq data (offset + toff) [83, 78, 73, 0]).1 = true :=
    (strncmp_sni data _).2 hs
  simp only [tag_walk, hm, if_true]
  split_ifs <;> rfl

/-- The `int` difference of two 32-bit values that are less than `2 ^ 31` apart. -/
theorem sub_i32_small (a b : Nat) (ha : a < 4294967296) (hle : b ≤ a) (hd : a - b < 2147483648) :
    sub_i32 a b = ((a - b : Nat) : Int) := by
  unfold sub_i32
  have hb : b % 4294967296 = b := Nat.mod_eq_of_lt (by omega)
  have hm : (a + 4294967296 - b) % 4294967296 = a - b := by omega
  simp only [hb, hm]
  rw [if_pos (by omega)]

/-- What lines 124-129 compute: the sum of the two length bytes and 5, reduced modulo
65536 by the 16-bit variable and then clamped to the payload length; on a build with
signed `char` for a second length byte below 128. -/
theorem tls_header_len_mod (h : Host) (data : Nat → Nat) (data_len : Nat)
    (hchar : h.char_signed = true → u8 data 4 < 128) :
    tls_header_len h data data_len =
      min ((u8 data 3 * 256 + u8 data 4 + 5) % 65536) data_len := by
  have h3 := u8_lt data 3
  have h4 := u8_lt data 4
  have hraw : to_u16 (char h (u8 data 3) * 256 + char h (u8 data 4) + 5) =
      (u8 data 3 * 256 + u8 data 4 + 5) % 65536 := by
    unfold to_u16 char
    by_cases hs : h.char_signed = true
    · have := hchar hs
      split_ifs <;> omega
    · split_ifs <;> first | omega | tauto
  unfold tls_header_len
  simp only [hraw]
  split_ifs with hgt
  · have : data_len % 65536 = data_len := Nat.mod_eq_of_lt (by omega)
    rw [this]
    omega
  · omega

/-- Where the sum of the two length bytes and 5 fits into 16 bits (and, on a build with
signed `char`, the second length byte is below 128), the record bound is the sum clamped
to the payload length. -/
theorem tls_header_len_eq_min (h : Host) (data : Nat → Nat) (data_len : Nat)
    (hchar : h.char_signed = true → u8 data 4 < 128)
    (hfit : u8 data 3 * 256 + u8 data 4 + 5 < 65536) :
    tls_header_len h data data_len = min (u8 data 3 * 256 + u8 data 4 + 5) data_len := by
  rw [tls_header_len_mod h data data_len hchar, Nat.mod_eq_of_lt hfit]

/-- The buffer `get_tls_hostname` asks `kmalloc` for holds at most 65536 bytes, a request
below `KMALLOC_MAX_SIZE`. -/
theorem tls_name_request_le (data : Nat → Nat) (i : Nat) :
    be16 data i + 1 ≤ 65536 ∧ 65536 ≤ KMALLOC_MAX_SIZE := by
  have := be16_lt data i
  exact ⟨by omega, by decide⟩


/-! Claims about `get_tls_hostname` -/

/-- C1 (as amended). For a well-formed ClientHello record lying wholly inside the payload
whose extensions block holds a server_name extension preceded only by extensions of other
types, `get_tls_hostname` returns 0 and the buffer it produces is the name followed by the
terminating zero byte, provided the name contains no zero byte, the record length plus 5
fits in 16 bits, and, on a build with signed `char`, the bytes `payload[4]`, `s` and `m`
are below 128. -/
theorem get_tls_hostname_returns_sni_name (h : Host) (data : Nat → Nat) (data_len s c m : Nat)
    (pre post : List Extension) (list_len name_type : Nat) (name rest : List Nat)
    (wf : WellFormedClientHello data data_len s c m
      (pre ++ ⟨0, sni_body list_len name_type name rest⟩ :: post))
    (hpre : ∀ e ∈ pre, e.id ≠ 0) (hname : ∀ b ∈ name, b ≠ 0)
    (hrec : be16 data 3 + 5 < 65536)
    (hchar : h.char_signed = true → u8 data 4 < 128 ∧ s < 128 ∧ m < 128) :
    ∃ reads, get_tls_hostname_data h data data_len = some ⟨Outcome.ok (name ++ [0]), reads⟩ :=
  tls_sni_found h data data_len s c m pre post list_len name_type name rest wf hpre hname hrec hchar

/-- Witness for C1: the ClientHello with the single name "test". -/
theorem get_tls_hostname_returns_sni_name_witness :
    WellFormedClientHello (mem (hello_with_sni 60 [116, 101, 115, 116])) 65 0 2 1
        ([] ++ ⟨0, sni_body 7 0 [116, 101, 115, 116] []⟩ :: []) ∧
      ∃ reads, get_tls_hostname_data host_signed (mem (hello_with_sni 60 [116, 101, 115, 116])) 65 =
        some ⟨Outcome.ok ([116, 101, 115, 116] ++ [0]), reads⟩ :=
  ⟨by decide,
   get_tls_hostname_returns_sni_name host_signed (mem (hello_with_sni 60 [116, 101, 115, 116])) 65
     0 2 1 [] [] 7 0 [116, 101, 115, 116] [] (by decide) (by simp) (by decide) (by decide)
     (by intro _; decide)⟩

/-- C1 as stated fails. (1) A well-formed ClientHello whose only server_name extension
carries the five name bytes 'a' 'b' 0 'c' 'd': the buffer produced is 'a' 'b' 0 0 0 0, not the
name. (2) A record that meets the layout of the claim with length field 65531, inside a
65536-byte payload: the 16-bit record bound wraps to 0 and the call returns EPROTO.
(3) On a build with signed `char`, a well-formed record of length 0x0180 (server_name
and padding extensions): the record bound becomes 133 and the call returns EPROTO. -/
theorem get_tls_hostname_sni_name_counterexample :
    (WellFormedClientHello (mem (hello_with_sni 61 [97, 98, 0, 99, 100])) 66 0 2 1
        [⟨0, sni_body 8 0 [97, 98, 0, 99, 100] []⟩] ∧
      (get_tls_hostname_data host_unsigned (mem (hello_with_sni 61 [97, 98, 0, 99, 100])) 66).map
        Run.out = some (Outcome.ok [97, 98, 0, 0, 0, 0])) ∧
    (WellFormedClientHello (mem (hello_with_sni 65531 [116, 101, 115, 116])) 65536 0 2 1
        [⟨0, sni_body 7 0 [116, 101, 115, 116] []⟩] ∧
      (get_tls_hostname_data host_unsigned (mem (hello_with_sni 65531 [116, 101, 115, 116]))
        65536).map Run.out = some Outcome.eproto) ∧
    (WellFormedClientHello
        (mem (client_hello 384 [] [0xc0, 0x2f] [0]
          [⟨0, sni_body 7 0 [116, 101, 115, 116] []⟩, ⟨21, List.replicate 320 0⟩])) 389 0 2 1
        [⟨0, sni_body 7 0 [116, 101, 115, 116] []⟩, ⟨21, List.replicate 320 0⟩] ∧
      (get_tls_hostname_data host_signed
        (mem (client_hello 384 [] [0xc0, 0x2f] [0]
          [⟨0, sni_body 7 0 [116, 101, 115, 116] []⟩, ⟨21, List.replicate 320 0⟩])) 389).map
        Run.out = some Outcome.eproto) := by
  refine ⟨⟨?_, ?_⟩, ⟨?_, ?_⟩, ⟨?_, ?_⟩⟩ <;> decide

/-- C2 (as amended). On success the buffer has `name_len + 1` bytes, where `name_len` is the
16-bit field in front of the name of an extension of type 0 found at offset `e` of the
extensions block and `p` the index just after that field:
the bytes `payload[p .. p + name_len)` up to the first zero byte among them, then zero bytes.
The hostname seen by a reader of the C string is that span cut at its first zero byte, and the
buffer is the whole span followed by the terminator when the span has no zero byte. -/
theorem get_tls_hostname_result_is_cut_span (h : Host) (data : Nat → Nat) (data_len : Nat)
    (dest reads : List Nat)
    (hok : get_tls_hostname_data h data data_len = some ⟨Outcome.ok dest, reads⟩) :
    ∃ e name_len p, 2 ≤ e ∧ e < be16 data (ext_base h data) ∧
      be16 data (ext_base h data + e) = 0 ∧
      name_len = be16 data (ext_base h data + e + 7) ∧ p = ext_base h data + e + 9 ∧
      dest.length = name_len + 1 ∧
      dest = cstr (span data p name_len) ++
        List.replicate (name_len + 1 - (cstr (span data p name_len)).length) 0 ∧
      cstr dest = cstr (span data p name_len) ∧
      ((∀ b ∈ span data p name_len, b ≠ 0) → dest = span data p name_len ++ [0]) := by
  rcases tls_run_cases h data data_len with ⟨r, hr⟩ | hhdr
  · rw [hr] at hok; cases hok
  · rw [tls_run_ok h data data_len hhdr] at hok
    cases hw : ext_walk data (ext_base h data) (be16 data (ext_base h data))
        (be16 data (ext_base h data)) 2 with
    | none => rw [hw] at hok; cases hok
    | some w =>
      rw [hw] at hok
      simp only [Option.map_some', Option.some.injEq, Run.mk.injEq] at hok
      obtain ⟨e, he1, he2, he3, he4'⟩ := ext_walk_ok data _ _ _ _ w dest hw hok.1
      have he4 : dest = (strncpy data (ext_base h data + e + 9)
          (be16 data (ext_base h data + e + 7))).1 ++ [0] := by
        rw [he4', Nat.add_assoc, Nat.add_assoc]
      have hle := cstr_length_le (span data (ext_base h data + e + 9)
          (be16 data (ext_base h data + e + 7)))
      rw [span_length] at hle
      refine ⟨e, _, _, he1, he2, he3, rfl, rfl, ?_, ?_, ?_, ?_⟩
      · rw [he4]; simp [strncpy_length]
      · rw [he4, strncpy_eq, List.append_assoc]
        congr 1
        rw [show be16 data (ext_base h data + e + 7) + 1 -
            (cstr (span data (ext_base h data + e + 9)
              (be16 data (ext_base h data + e + 7)))).length =
            be16 data (ext_base h data + e + 7) -
            (cstr (span data (ext_base h data + e + 9)
              (be16 data (ext_base h data + e + 7)))).length + 1 by omega,
          List.replicate_succ']
      · rw [he4, cstr_strncpy]
      · intro hz
        rw [he4, strncpy_eq, cstr_of_no_zero _ hz, span_length]
        simp

/-- Witness for C2: the ClientHello whose name field is 'a' 0 'b'. -/
theorem get_tls_hostname_result_is_cut_span_witness :
    get_tls_hostname_data host_unsigned (mem (hello_with_sni 59 [97, 0, 98])) 64 =
      some ⟨Outcome.ok [97, 0, 0, 0],
        [0, 3, 4, 5, 43, 44, 45, 48, 50, 51, 52, 53, 54, 55, 58, 59, 60, 61, 62]⟩ ∧
    ∃ e name_len p, 2 ≤ e ∧
      e < be16 (mem (hello_with_sni 59 [97, 0, 98]))
        (ext_base host_unsigned (mem (hello_with_sni 59 [97, 0, 98]))) ∧
      be16 (mem (hello_with_sni 59 [97, 0, 98])) (ext_base host_unsigned
        (mem (hello_with_sni 59 [97, 0, 98])) + e) = 0 ∧
      name_len = be16 (mem (hello_with_sni 59 [97, 0, 98])) (ext_base host_unsigned
        (mem (hello_with_sni 59 [97, 0, 98])) + e + 7) ∧
      p = ext_base host_unsigned (mem (hello_with_sni 59 [97, 0, 98])) + e + 9 ∧
      [97, 0, 0, 0].length = name_len + 1 ∧
      [97, 0, 0, 0] = cstr (span (mem (hello_with_sni 59 [97, 0, 98])) p name_len) ++
        List.replicate
          (name_len + 1 - (cstr (span (mem (hello_with_sni 59 [97, 0, 98])) p name_len)).length) 0 ∧
      cstr [97, 0, 0, 0] = cstr (span (mem (hello_with_sni 59 [97, 0, 98])) p name_len) ∧
      ((∀ b ∈ span (mem (hello_with_sni 59 [97, 0, 98])) p name_len, b ≠ 0) →
        [97, 0, 0, 0] = span (mem (hello_with_sni 59 [97, 0, 98])) p name_len ++ [0]) :=
  ⟨by decide,
   get_tls_hostname_result_is_cut_span host_unsigned (mem (hello_with_sni 59 [97, 0, 98])) 64
    [97, 0, 0, 0] [0, 3, 4, 5, 43, 44, 45, 48, 50, 51, 52, 53, 54, 55, 58, 59, 60, 61, 62]
    (by decide)⟩

/-- C2 as stated fails on its own example: with the name field 'a' 0 'b' and `name_len = 3`
at indices 59-60, the span `payload[61 .. 64)` is 'a' 0 'b' but the buffer returned holds
'a' 0 0 and the terminator. -/
theorem get_tls_hostname_embedded_zero_counterexample :
    be16 (mem (hello_with_sni 59 [97, 0, 98])) 59 = 3 ∧
    span (mem (hello_with_sni 59 [97, 0, 98])) 61 3 = [97, 0, 98] ∧
    get_tls_hostname_data host_unsigned (mem (hello_with_sni 59 [97, 0, 98])) 64 =
      some ⟨Outcome.ok [97, 0, 0, 0],
        [0, 3, 4, 5, 43, 44, 45, 48, 50, 51, 52, 53, 54, 55, 58, 59, 60, 61, 62]⟩ ∧
    get_tls_hostname_data host_signed (mem (hello_with_sni 59 [97, 0, 98])) 64 =
      some ⟨Outcome.ok [97, 0, 0, 0],
        [0, 3, 4, 5, 43, 44, 45, 48, 50, 51, 52, 53, 54, 55, 58, 59, 60, 61, 62]⟩ := by
  refine ⟨?_, ?_, ?_, ?_⟩ <;> decide

/-- C3: on the empty payload (`data_len = 0`) the call reads index 0, whatever the memory
behind the payload holds. -/
theorem get_tls_hostname_reads_empty_payload (h : Host) (data : Nat → Nat) :
    ∃ r, get_tls_hostname_data h data 0 = some r ∧ 0 ∈ r.reads := by
  rcases tls_run_cases h data 0 with ⟨reads, hr⟩ | hhdr
  · refine ⟨_, hr, ?_⟩
    unfold get_tls_hostname_data at hr
    simp only [] at hr
    split_ifs at hr <;>
      first
        | (simp only [Option.some.injEq, Run.mk.injEq] at hr; rw [← hr.2]; simp)
        | skip
    rename_i h1 h2 h3 h4 h5 h6 h7 h8
    omega
  · exact absurd hhdr.2.2.2.1 (by omega)

/-- C5 (as amended). The scenario with the record-length bytes 0x00 0x3C (the 60 bytes of
the handshake message described) in place of 0x00 0x05: first six bytes
0x16 0x03 0x01 0x00 0x3C 0x01, session-id length 0, cipher-suites length 2,
compression-methods length 1, extensions block of 13 bytes holding the extension
(id 0, len 9) with body (list_len 7, name_type 0, name_len 4, "test"); the call returns 0
with the buffer "test" and its terminator. -/
theorem get_tls_hostname_test_scenario (h : Host) (data : Nat → Nat) (data_len : Nat)
    (hhdr : span data 0 6 = [0x16, 0x03, 0x01, 0x00, 0x3C, 0x01])
    (hsid : u8 data 43 = 0) (hcip : be16 data 44 = 2) (hcmp : u8 data 48 = 1)
    (hext : span data 50 15 = [0, 13, 0, 0, 0, 9, 0, 7, 0, 0, 4, 116, 101, 115, 116])
    (hlen : 65 ≤ data_len) :
    ∃ reads, get_tls_hostname_data h data data_len =
      some ⟨Outcome.ok [116, 101, 115, 116, 0], reads⟩ := by
  have e0 : u8 data 0 = 22 ∧ u8 data 3 = 0 ∧ u8 data 4 = 60 ∧ u8 data 5 = 1 := by
    simp only [span, List.cons.injEq] at hhdr
    exact ⟨hhdr.1, hhdr.2.2.2.1, hhdr.2.2.2.2.1, hhdr.2.2.2.2.2.1⟩
  have e3 : be16 data 3 = 60 := by unfold be16; rw [e0.2.1, e0.2.2.1]
  obtain ⟨hel, hblock⟩ := be16_of_span data 50 13 [0, 0, 0, 9, 0, 7, 0, 0, 4, 116, 101, 115, 116] hext
  have wf : WellFormedClientHello data data_len 0 2 1
      ([] ++ ⟨0, sni_body 7 0 [116, 101, 115, 116] []⟩ :: []) := by
    refine ⟨e0.1, e0.2.2.2, hsid, hcip, hcmp, hel, hblock, ?_, ?_⟩
    · rw [e3]; decide
    · rw [e3]; exact hlen
  exact tls_sni_found h data data_len 0 2 1 [] [] 7 0 [116, 101, 115, 116] [] wf (by simp)
    (by decide) (by rw [e3]; decide) (by intro _; rw [e0.2.2.1]; decide)

/-- Witness for C5: the 65-byte payload of the scenario. -/
theorem get_tls_hostname_test_scenario_witness :
    span (mem (hello_with_sni 60 [116, 101, 115, 116])) 0 6 = [0x16, 0x03, 0x01, 0x00, 0x3C, 0x01] ∧
    ∃ reads, get_tls_hostname_data host_unsigned (mem (hello_with_sni 60 [116, 101, 115, 116])) 65 =
      some ⟨Outcome.ok [116, 101, 115, 116, 0], reads⟩ :=
  ⟨by decide,
   get_tls_hostname_test_scenario host_unsigned (mem (hello_with_sni 60 [116, 101, 115, 116])) 65
    (by decide) (by decide) (by decide) (by decide) (by decide) (by decide)⟩

/-- C5 as stated fails: on the payload of the scenario, with record-length bytes 0x00 0x05,
the record bound is 10 and the call returns EPROTO after reading the session-id length. -/
theorem get_tls_hostname_test_scenario_counterexample :
    span (mem (hello_with_sni 5 [116, 101, 115, 116])) 0 6 = [0x16, 0x03, 0x01, 0x00, 0x05, 0x01] ∧
    u8 (mem (hello_with_sni 5 [116, 101, 115, 116])) 43 = 0 ∧
    be16 (mem (hello_with_sni 5 [116, 101, 115, 116])) 44 = 2 ∧
    u8 (mem (hello_with_sni 5 [116, 101, 115, 116])) 48 = 1 ∧
    span (mem (hello_with_sni 5 [116, 101, 115, 116])) 50 15 =
      [0, 13, 0, 0, 0, 9, 0, 7, 0, 0, 4, 116, 101, 115, 116] ∧
    tls_header_len host_unsigned (mem (hello_with_sni 5 [116, 101, 115, 116])) 65 = 10 ∧
    get_tls_hostname_data host_unsigned (mem (hello_with_sni 5 [116, 101, 115, 116])) 65 =
      some ⟨Outcome.eproto, [0, 3, 4, 5, 43]⟩ ∧
    get_tls_hostname_data host_signed (mem (hello_with_sni 5 [116, 101, 115, 116])) 65 =
      some ⟨Outcome.eproto, [0, 3, 4, 5, 43]⟩ := by
  refine ⟨?_, ?_, ?_, ?_, ?_, ?_, ?_, ?_⟩ <;> decide

/-- C6, failing input on a build with signed `char`: a 65480-byte payload that starts with
a well-formed 183-byte ClientHello record (128 compression methods, one extension of type
23, none of type 0) and holds other bytes from index 65457 on.  The compression-methods
length 0x80 is sign-extended to 65408, the walk starts at index 65459 and the call returns
0 with the buffer "bad".  On a build with unsigned `char` the same payload is rejected. -/
theorem get_tls_hostname_no_sni_sign_extension :
    WellFormedClientHello
      (mem2 (client_hello 178 [] [0xc0, 0x2f] (List.replicate 128 0) [⟨23, []⟩]) 65457
        [0, 6, 0, 0, 0, 0, 0, 0, 0, 0, 3, 98, 97, 100]) 65480 0 2 128 [⟨23, []⟩] ∧
    (get_tls_hostname_data host_signed
      (mem2 (client_hello 178 [] [0xc0, 0x2f] (List.replicate 128 0) [⟨23, []⟩]) 65457
        [0, 6, 0, 0, 0, 0, 0, 0, 0, 0, 3, 98, 97, 100]) 65480).map Run.out =
      some (Outcome.ok [98, 97, 100, 0]) ∧
    (get_tls_hostname_data host_unsigned
      (mem2 (client_hello 178 [] [0xc0, 0x2f] (List.replicate 128 0) [⟨23, []⟩]) 65457
        [0, 6, 0, 0, 0, 0, 0, 0, 0, 0, 3, 98, 97, 100]) 65480).map Run.out =
      some Outcome.eproto := by
  refine ⟨?_, ?_, ?_⟩ <;> decide

/-- C7. Every call returns, and it returns either EPROTO or 0 with a buffer; in the latter
case `payload[0] = 0x16`, `payload[5] = 0x01`, the clamped record length exceeds 4 and the
payload has at least 45 bytes. -/
theorem get_tls_hostname_success_conditions (h : Host) (data : Nat → Nat) (data_len : Nat) :
    ∃ r, get_tls_hostname_data h data data_len = some r ∧
      (r.out = Outcome.eproto ∨
        ((∃ dest, r.out = Outcome.ok dest) ∧ u8 data 0 = 0x16 ∧ u8 data 5 = 0x01 ∧
          4 < tls_header_len h data data_len ∧ 45 ≤ data_len)) := by
  rcases tls_run_cases h data data_len with ⟨reads, hr⟩ | hhdr
  · exact ⟨_, hr, Or.inl rfl⟩
  · obtain ⟨r, hr⟩ := get_tls_hostname_data_total h data data_len
    refine ⟨r, hr, ?_⟩
    rw [tls_run_ok h data data_len hhdr] at hr
    cases hw : ext_walk data (ext_base h data) (be16 data (ext_base h data))
        (be16 data (ext_base h data)) 2 with
    | none => rw [hw] at hr; cases hr
    | some w =>
      rw [hw] at hr
      simp only [Option.map_some', Option.some.injEq] at hr
      have hnf := ext_walk_no_fault data _ _ _ _ w hw
      subst hr
      cases hout : w.out with
      | eproto => exact Or.inl rfl
      | fault => exact absurd hout hnf
      | ok dest => exact Or.inr ⟨⟨dest, rfl⟩, hhdr.1, hhdr.2.2.1, hhdr.2.1, hhdr.2.2.2.1⟩

/-! Claims about `get_quic_hostname` -/

/-- C4, failing inputs, on every build.  (1) The datagram `quic_bad`: the second table entry
is the SNI tag with end offset 0 after an entry with end offset 16777217, so `name_length`
is -16777217, the copy starts at index 38 + 8 * 257 + 16777217 and the call faults.
(2) The datagram `quic_long`: the tag count is 257 and no entry is the SNI tag, so the walk
reads table entries up to index 2093, past the end of the datagram. -/
theorem get_quic_hostname_unchecked_offsets (h : Host) :
    get_quic_hostname_data h 1358 quic_bad =
      ⟨Outcome.fault, [30, 31, 32, 33, 34, 35, 38, 42, 43, 44, 45, 46, 47, 48, 49, 50, 51, 52, 53,
        16779311]⟩ ∧
    sub_i32 (host32 h quic_bad 50) (host32 h quic_bad 42) = -16777217 ∧
    (get_quic_hostname_data h 1358 quic_long).out = Outcome.eproto ∧
    2093 ∈ (get_quic_hostname_data h 1358 quic_long).reads := by
  obtain ⟨a, b⟩ := h
  cases a <;> cases b <;> refine ⟨?_, ?_, ?_, ?_⟩ <;> decide

/-! Claims about `tls_mt` -/

/-- C8. With the same pattern, an info whose invert bit is set and one whose invert bit is
clear lead to the same parser call; when that call succeeds the two verdicts are each
other's negation, and when it returns an error both verdicts are false. -/
theorem tls_mt_invert_symmetric (h : Host) (x : Ext) (proto_uninit : Int) (skb : sk_buff)
    (i1 i2 : xt_tls_info) (hpat : i1.tls_host = i2.tls_host)
    (hset : i1.invert &&& x.XT_TLS_OP_HOST ≠ 0) (hclr : i2.invert &&& x.XT_TLS_OP_HOST = 0) :
    ∃ r1 r2, tls_mt h x proto_uninit skb i1 = some r1 ∧ tls_mt h x proto_uninit skb i2 = some r2 ∧
      r1.parsed = r2.parsed ∧
      (∀ p dest, r1.parsed = some (p, Outcome.ok dest) →
        ∃ b, r2.verdict = some b ∧ r1.verdict = some (!b)) ∧
      (∀ p, r1.parsed = some (p, Outcome.eproto) →
        r1.verdict = some false ∧ r2.verdict = some false) := by
  have d1 : decide (i1.invert &&& x.XT_TLS_OP_HOST ≠ 0) = true := by simpa using hset
  have d2 : decide (i2.invert &&& x.XT_TLS_OP_HOST ≠ 0) = false := by simpa using hclr
  obtain ⟨res, hres⟩ := tls_mt_dispatch h x proto_uninit skb
  refine ⟨_, _, hres i1, hres i2, ?_⟩
  rw [d1, d2]
  cases res with
  | none =>
    refine ⟨rfl, ?_, ?_⟩
    · intro p d hp
      cases hp
    · intro p hp
      cases hp
  | some po =>
    obtain ⟨p, out⟩ := po
    cases out with
    | ok dest =>
      refine ⟨rfl, ?_, ?_⟩
      · intro q d _
        exact ⟨x.glob_match i2.tls_host (cstr dest), rfl, by simp [mt_finish, hpat]⟩
      · intro q hq
        simp [mt_finish] at hq
    | eproto =>
      refine ⟨rfl, ?_, ?_⟩
      · intro q d hq
        simp [mt_finish] at hq
      · intro q _
        exact ⟨rfl, rfl⟩
    | fault =>
      refine ⟨rfl, ?_, ?_⟩
      · intro q d hq
        simp [mt_finish] at hq
      · intro q hq
        simp [mt_finish] at hq

/-- Witness for C8: an IPv4/TCP packet carrying the ClientHello for "api.example.com". -/
theorem tls_mt_invert_symmetric_witness :
    tls_mt host_unsigned ext_example 0 (tcp_packet 4 6 0 (hello_with_sni 71 api_example_com))
        ⟨1, star_example_com⟩ =
      some ⟨some false, some (Parser.tls, Outcome.ok (api_example_com ++ [0]))⟩ ∧
    tls_mt host_unsigned ext_example 0 (tcp_packet 4 6 0 (hello_with_sni 71 api_example_com))
        ⟨0, star_example_com⟩ =
      some ⟨some true, some (Parser.tls, Outcome.ok (api_example_com ++ [0]))⟩ ∧
    ∃ r1 r2,
      tls_mt host_unsigned ext_example 0 (tcp_packet 4 6 0 (hello_with_sni 71 api_example_com))
        ⟨1, star_example_com⟩ = some r1 ∧
      tls_mt host_unsigned ext_example 0 (tcp_packet 4 6 0 (hello_with_sni 71 api_example_com))
        ⟨0, star_example_com⟩ = some r2 ∧
      r1.parsed = r2.parsed ∧
      (∀ p dest, r1.parsed = some (p, Outcome.ok dest) →
        ∃ b, r2.verdict = some b ∧ r1.verdict = some (!b)) ∧
      (∀ p, r1.parsed = some (p, Outcome.eproto) →
        r1.verdict = some false ∧ r2.verdict = some false) :=
  ⟨by decide, by decide,
   tls_mt_invert_symmetric host_unsigned ext_example 0
     (tcp_packet 4 6 0 (hello_with_sni 71 api_example_com)) ⟨1, star_example_com⟩
     ⟨0, star_example_com⟩ rfl (by decide) (by decide)⟩

/-- C9. For an IPv4 packet whose protocol is TCP and whose TLS parse succeeds with buffer
`dest`, or whose protocol is UDP and whose QUIC parse succeeds with buffer `dest`, `tls_mt`
returns `glob_match(pattern, hostname) XOR invert`, the hostname being the C string in
`dest`. -/
theorem tls_mt_verdict_ipv4 (h : Host) (x : Ext) (proto_uninit : Int) (skb : sk_buff)
    (info : xt_tls_info) (dest : List Nat) (hv : skb.version = 4)
    (hp : (skb.protocol = 6 ∧ (get_tls_hostname h skb).map Run.out = some (Outcome.ok dest)) ∨
      (skb.protocol = 17 ∧ (get_quic_hostname h skb).out = Outcome.ok dest)) :
    (tls_mt h x proto_uninit skb info).map MtRun.verdict =
      some (some (Bool.xor (x.glob_match info.tls_host (cstr dest))
        (decide (info.invert &&& x.XT_TLS_OP_HOST ≠ 0)))) := by
  have hx : ∀ (m b : Bool), (if b = true then !m else m) = Bool.xor m b := by decide
  have e6 : ((6 : Nat) : Int) = IPPROTO_TCP := rfl
  have e17 : ((17 : Nat) : Int) = IPPROTO_UDP := rfl
  have nut : ¬ IPPROTO_UDP = IPPROTO_TCP := by decide
  unfold tls_mt
  rcases hp with ⟨hp, hr⟩ | ⟨hp, hr⟩
  · cases hg : get_tls_hostname h skb with
    | none => rw [hg] at hr; cases hr
    | some r =>
      rw [hg] at hr
      simp only [Option.map_some', Option.some.injEq] at hr
      simp only [hv, hp, e6, if_true, Option.map_some', hr, mt_finish, hx]
  · simp only [hv, hp, e17, nut, if_true, if_false, Option.map_some', hr, mt_finish, hx]

/-- Witness for C9: the scenario of the specification, pattern "*.example.com" and
hostname "api.example.com", once in an IPv4/TCP packet and once in an IPv4/UDP packet:
verdict true with invert clear, false with invert set. -/
theorem tls_mt_verdict_ipv4_witness :
    (get_tls_hostname host_unsigned (tcp_packet 4 6 0 (hello_with_sni 71 api_example_com))).map
        Run.out = some (Outcome.ok (api_example_com ++ [0])) ∧
    (get_quic_hostname host_unsigned (udp_packet 4 17 0 1358 quic_hello)).out =
      Outcome.ok (api_example_com ++ [0]) ∧
    cstr (api_example_com ++ [0]) = api_example_com ∧
    ext_example.glob_match star_example_com api_example_com = true ∧
    (tls_mt host_unsigned ext_example 0 (tcp_packet 4 6 0 (hello_with_sni 71 api_example_com))
        ⟨0, star_example_com⟩).map MtRun.verdict = some (some true) ∧
    (tls_mt host_unsigned ext_example 0 (tcp_packet 4 6 0 (hello_with_sni 71 api_example_com))
        ⟨1, star_example_com⟩).map MtRun.verdict = some (some false) ∧
    (tls_mt host_unsigned ext_example 0 (udp_packet 4 17 0 1358 quic_hello)
        ⟨0, star_example_com⟩).map MtRun.verdict = some (some true) ∧
    (tls_mt host_unsigned ext_example 0 (udp_packet 4 17 0 1358 quic_hello)
        ⟨1, star_example_com⟩).map MtRun.verdict = some (some false) :=
  ⟨by decide, by decide, by decide, by decide,
   Eq.trans (tls_mt_verdict_ipv4 host_unsigned ext_example 0
     (tcp_packet 4 6 0 (hello_with_sni 71 api_example_com)) ⟨0, star_example_com⟩
     (api_example_com ++ [0]) rfl (Or.inl ⟨rfl, by decide⟩)) (by decide),
   Eq.trans (tls_mt_verdict_ipv4 host_unsigned ext_example 0
     (tcp_packet 4 6 0 (hello_with_sni 71 api_example_com)) ⟨1, star_example_com⟩
     (api_example_com ++ [0]) rfl (Or.inl ⟨rfl, by decide⟩)) (by decide),
   Eq.trans (tls_mt_verdict_ipv4 host_unsigned ext_example 0
     (udp_packet 4 17 0 1358 quic_hello) ⟨0, star_example_com⟩
     (api_example_com ++ [0]) rfl (Or.inr ⟨rfl, by decide⟩)) (by decide),
   Eq.trans (tls_mt_verdict_ipv4 host_unsigned ext_example 0
     (udp_packet 4 17 0 1358 quic_hello) ⟨1, star_example_com⟩
     (api_example_com ++ [0]) rfl (Or.inr ⟨rfl, by decide⟩)) (by decide)⟩

/-- C10, failing input: an IPv6 packet with next header TCP carrying the ClientHello for
"api.example.com".  The TLS parser succeeds on its payload and the pattern matches the
name, yet `tls_mt` returns false without calling a parser, with invert clear and with
invert set; the same packet with version 4 and protocol TCP gives true with invert
clear. -/
theorem tls_mt_ipv6_returns_false :
    (get_tls_hostname host_unsigned (tcp_packet 6 0 6 (hello_with_sni 71 api_example_com))).map
        Run.out = some (Outcome.ok (api_example_com ++ [0])) ∧
    ext_example.glob_match star_example_com (cstr (api_example_com ++ [0])) = true ∧
    tls_mt host_unsigned ext_example 0 (tcp_packet 6 0 6 (hello_with_sni 71 api_example_com))
        ⟨0, star_example_com⟩ = some ⟨some false, none⟩ ∧
    tls_mt host_unsigned ext_example 0 (tcp_packet 6 0 6 (hello_with_sni 71 api_example_com))
        ⟨1, star_example_com⟩ = some ⟨some false, none⟩ ∧
    tls_mt host_unsigned ext_example 0 (tcp_packet 4 6 0 (hello_with_sni 71 api_example_com))
        ⟨0, star_example_com⟩ =
      some ⟨some true, some (Parser.tls, Outcome.ok (api_example_com ++ [0]))⟩ := by
  refine ⟨?_, ?_, ?_, ?_, ?_⟩ <;> decide

/-! Further claims about `get_quic_hostname` -/

/-- C12. When the length field of the UDP header is not 1358, `get_quic_hostname` returns
EPROTO, produces no buffer and reads no index of the payload. -/
theorem get_quic_hostname_other_length (h : Host) (udpdatalen : Nat) (data : Nat → Nat)
    (hlen : udpdatalen ≠ 1358) :
    get_quic_hostname_data h udpdatalen data = ⟨Outcome.eproto, []⟩ ∧
      (get_quic_hostname_data h udpdatalen data).out.ret = some EPROTO := by
  unfold get_quic_hostname_data
  rw [if_pos hlen]
  exact ⟨rfl, rfl⟩

/-- Witness for C12: a datagram of length 1357 that carries a complete CHLO. -/
theorem get_quic_hostname_other_length_witness :
    (1357 : Nat) ≠ 1358 ∧
    get_quic_hostname_data host_unsigned 1357 quic_hello = ⟨Outcome.eproto, []⟩ ∧
      (get_quic_hostname_data host_unsigned 1357 quic_hello).out.ret = some EPROTO :=
  ⟨by decide, get_quic_hostname_other_length host_unsigned 1357 quic_hello (by decide)⟩

/-- C14. A call of `get_quic_hostname` returns EPROTO unless the length is 1358, the bytes
at 30..33 are "CHLO" and some table entry below the tag count carries the four bytes
'S', 'N', 'I', 0; so it returns 0 only in that case. -/
theorem get_quic_hostname_success_conditions (h : Host) (udpdatalen : Nat) (data : Nat → Nat) :
    (get_quic_hostname_data h udpdatalen data).out = Outcome.eproto ∨
      (udpdatalen = 1358 ∧ span data 30 4 = CHLO_TAG ∧
        ∃ i, i < host16 h data 34 ∧ span data (38 + 8 * i) 4 = SNI_TAG) := by
  unfold get_quic_hostname_data
  by_cases hlen : udpdatalen = 1358
  swap
  · left; rw [if_pos hlen]
  · rw [if_neg (by simpa using hlen)]
    by_cases hc : (strncmp_eq data (13 + 17) [67, 72, 76, 79]).1 = true
    swap
    · left; simp only [hc]; rfl
    · simp only [hc, if_true]
      by_cases he : (tag_walk h data (13 + 17 + 4 + 4) (host16 h data (13 + 17 + 4))
          (host16 h data (13 + 17 + 4)) 0 0).out = Outcome.eproto
      · left; exact he
      · right
        obtain ⟨j, hj, hs⟩ := tag_walk_not_eproto h data _ _ _ _ _ he
        refine ⟨hlen, (strncmp_chlo data _).1 hc, j, hj, ?_⟩
        simpa using hs

/-! Claims about `tls_mt_check` -/

/-- C15. The rule check `tls_mt_check` returns 0 when the family is IPv4 or IPv6 and the
protocol of the rule is 6 (TCP) or 17 (UDP), and -EINVAL in every other case. -/
theorem tls_mt_check_accepts_tcp_udp (par : xt_mtchk_param) :
    (tls_mt_check par = 0 ∧
      ((par.family = NFPROTO_IPV4 ∧ (par.ipt_proto = 6 ∨ par.ipt_proto = 17)) ∨
        (par.family = NFPROTO_IPV6 ∧ (par.ip6t_proto = 6 ∨ par.ip6t_proto = 17)))) ∨
    (tls_mt_check par = -EINVAL ∧
      ¬ ((par.family = NFPROTO_IPV4 ∧ (par.ipt_proto = 6 ∨ par.ipt_proto = 17)) ∨
        (par.family = NFPROTO_IPV6 ∧ (par.ip6t_proto = 6 ∨ par.ip6t_proto = 17)))) := by
  have hne : NFPROTO_IPV4 ≠ NFPROTO_IPV6 := by decide
  have key : ∀ p : Nat, (((p : Int) ≠ IPPROTO_TCP ∧ (p : Int) ≠ IPPROTO_UDP) ↔ ¬ (p = 6 ∨ p = 17)) := by
    intro p
    unfold IPPROTO_TCP IPPROTO_UDP
    omega
  unfold tls_mt_check
  by_cases h4 : par.family = NFPROTO_IPV4
  · have h6 : ¬ par.family = NFPROTO_IPV6 := fun h => hne (h4.symm.trans h)
    simp only [if_pos h4]
    by_cases hp : (par.ipt_proto = 6 ∨ par.ipt_proto = 17)
    · left
      exact ⟨if_neg (fun hc => (key _).1 hc hp), Or.inl ⟨h4, hp⟩⟩
    · right
      refine ⟨if_pos ((key _).2 hp), ?_⟩
      rintro (⟨_, hc⟩ | ⟨hc, _⟩)
      · exact hp hc
      · exact h6 hc
  · by_cases h6 : par.family = NFPROTO_IPV6
    · simp only [if_neg h4, if_pos h6]
      by_cases hp : (par.ip6t_proto = 6 ∨ par.ip6t_proto = 17)
      · left
        exact ⟨if_neg (fun hc => (key _).1 hc hp), Or.inr ⟨h6, hp⟩⟩
      · right
        refine ⟨if_pos ((key _).2 hp), ?_⟩
        rintro (⟨hc, _⟩ | ⟨_, hc⟩)
        · exact h4 hc
        · exact hp hc
    · simp only [if_neg h4, if_neg h6]
      right
      refine ⟨trivial, ?_⟩
      rintro (⟨hc, _⟩ | ⟨hc, _⟩)
      · exact h4 hc
      · exact h6 hc

/-! Further claims about `get_tls_hostname` -/

/-- C16. The record bound overflows its 16-bit variable before it is clamped.
(1) The example of the claim on a build with unsigned `char`: in `hello_len_fffb` the
length bytes are 0xFF 0xFB; with 600 captured bytes the bound of the claim is
min(65536, 600) = 600, the code's `tls_header_len` is 0 and the call returns EPROTO after
reading indices 0, 3, 4, 5, although the server name "test" is among the captured bytes.
With length bytes 0xFF 0xFA (`hello_len_fffa`, no overflow) the bound is 600 and the call
returns "test".  (2) On a build with signed `char`, length bytes 0x01 0x80 and 600
captured bytes give the bound 133, where min(389, 600) is 389: the second length byte is
sign-extended. -/
theorem tls_header_len_overflows_u16 :
    (u8 hello_len_fffb 0 = 0x16 ∧ span hello_len_fffb 3 2 = [0xFF, 0xFB] ∧
      min (u8 hello_len_fffb 3 * 256 + u8 hello_len_fffb 4 + 5) 600 = 600 ∧
      tls_header_len host_unsigned hello_len_fffb 600 = 0 ∧
      get_tls_hostname_data host_unsigned hello_len_fffb 600 =
        some ⟨Outcome.eproto, [0, 3, 4, 5]⟩ ∧
      span hello_len_fffa 3 2 = [0xFF, 0xFA] ∧
      tls_header_len host_unsigned hello_len_fffa 600 = 600 ∧
      (get_tls_hostname_data host_unsigned hello_len_fffa 600).map Run.out =
        some (Outcome.ok [116, 101, 115, 116, 0])) ∧
    (u8 (mem [0x16, 3, 1, 0x01, 0x80, 1]) 0 = 0x16 ∧
      min (u8 (mem [0x16, 3, 1, 0x01, 0x80, 1]) 3 * 256 +
        u8 (mem [0x16, 3, 1, 0x01, 0x80, 1]) 4 + 5) 600 = 389 ∧
      tls_header_len host_signed (mem [0x16, 3, 1, 0x01, 0x80, 1]) 600 = 133) := by
  refine ⟨⟨?_, ?_, ?_, ?_, ?_, ?_, ?_, ?_⟩, ⟨?_, ?_, ?_⟩⟩ <;> decide

/-- C18 (as amended). The framing agrees with RFC 5246: with `s`, `c` and `m` the
session-id, cipher-suites and compression-methods lengths the code decodes, the code's
`offset` after the cipher suites is `43 + s + c + 2`, the index `offset + 1` at which it
reads the compression-methods length is the RFC index of that field, the index
`offset + m + 2` at which it reads the extensions length is the RFC index of that field,
and when the checks before the loop pass these are the indices the call reads. -/
theorem tls_framing_matches_rfc (h : Host) (data : Nat → Nat) (data_len : Nat)
    (hok : hdr_ok h data data_len) :
    cipher_end h data =
      43 + session_id_len h data + be16 data (43 + session_id_len h data + 1) + 2 ∧
    cipher_end h data + 1 =
      rfc_compression_len_index (session_id_len h data)
        (be16 data (43 + session_id_len h data + 1)) ∧
    cipher_end h data + (compression_len h data + 2) =
      rfc_extensions_len_index (session_id_len h data)
        (be16 data (43 + session_id_len h data + 1)) (compression_len h data) ∧
    ∃ r rest, get_tls_hostname_data h data data_len = some r ∧
      r.reads = [0, 3, 4, 5, 43, 43 + session_id_len h data + 1, 43 + session_id_len h data + 2,
        rfc_compression_len_index (session_id_len h data)
          (be16 data (43 + session_id_len h data + 1)),
        rfc_extensions_len_index (session_id_len h data)
          (be16 data (43 + session_id_len h data + 1)) (compression_len h data),
        rfc_extensions_len_index (session_id_len h data)
          (be16 data (43 + session_id_len h data + 1)) (compression_len h data) + 1] ++ rest := by
  have e1 : cipher_end h data + 1 =
      rfc_compression_len_index (session_id_len h data)
        (be16 data (43 + session_id_len h data + 1)) := by
    unfold cipher_end rfc_compression_len_index
    omega
  have e2 : ext_base h data =
      rfc_extensions_len_index (session_id_len h data)
        (be16 data (43 + session_id_len h data + 1)) (compression_len h data) := by
    unfold ext_base rfc_extensions_len_index compression_len
    rw [← e1]
    omega
  refine ⟨rfl, e1, ?_, ?_⟩
  · rw [← e2]
    rfl
  · obtain ⟨r, hr⟩ := get_tls_hostname_data_total h data data_len
    rw [tls_run_ok h data data_len hok] at hr
    cases hw : ext_walk data (ext_base h data) (be16 data (ext_base h data))
        (be16 data (ext_base h data)) 2 with
    | none => rw [hw] at hr; cases hr
    | some w =>
      rw [hw] at hr
      simp only [Option.map_some', Option.some.injEq] at hr
      refine ⟨r, w.reads, ?_, ?_⟩
      · rw [tls_run_ok h data data_len hok, hw, ← hr]
        rfl
      · rw [← hr, ← e1, ← e2]
        rfl

/-- Witness for C18: the ClientHello for "test", laid out as in RFC 5246. -/
theorem tls_framing_matches_rfc_witness :
    hdr_ok host_unsigned (mem (hello_with_sni 60 [116, 101, 115, 116])) 65 ∧
    (cipher_end host_unsigned (mem (hello_with_sni 60 [116, 101, 115, 116])) =
      43 + session_id_len host_unsigned (mem (hello_with_sni 60 [116, 101, 115, 116])) +
        be16 (mem (hello_with_sni 60 [116, 101, 115, 116]))
          (43 + session_id_len host_unsigned (mem (hello_with_sni 60 [116, 101, 115, 116])) + 1) +
        2 ∧
    cipher_end host_unsigned (mem (hello_with_sni 60 [116, 101, 115, 116])) + 1 =
      rfc_compression_len_index
        (session_id_len host_unsigned (mem (hello_with_sni 60 [116, 101, 115, 116])))
        (be16 (mem (hello_with_sni 60 [116, 101, 115, 116]))
          (43 + session_id_len host_unsigned (mem (hello_with_sni 60 [116, 101, 115, 116])) + 1)) ∧
    cipher_end host_unsigned (mem (hello_with_sni 60 [116, 101, 115, 116])) +
        (compression_len host_unsigned (mem (hello_with_sni 60 [116, 101, 115, 116])) + 2) =
      rfc_extensions_len_index
        (session_id_len host_unsigned (mem (hello_with_sni 60 [116, 101, 115, 116])))
        (be16 (mem (hello_with_sni 60 [116, 101, 115, 116]))
          (43 + session_id_len host_unsigned (mem (hello_with_sni 60 [116, 101, 115, 116])) + 1))
        (compression_len host_unsigned (mem (hello_with_sni 60 [116, 101, 115, 116]))) ∧
    ∃ r rest, get_tls_hostname_data host_unsigned
        (mem (hello_with_sni 60 [116, 101, 115, 116])) 65 = some r ∧
      r.reads = [0, 3, 4, 5, 43,
        43 + session_id_len host_unsigned (mem (hello_with_sni 60 [116, 101, 115, 116])) + 1,
        43 + session_id_len host_unsigned (mem (hello_with_sni 60 [116, 101, 115, 116])) + 2,
        rfc_compression_len_index
          (session_id_len host_unsigned (mem (hello_with_sni 60 [116, 101, 115, 116])))
          (be16 (mem (hello_with_sni 60 [116, 101, 115, 116]))
            (43 + session_id_len host_unsigned (mem (hello_with_sni 60 [116, 101, 115, 116])) + 1)),
        rfc_extensions_len_index
          (session_id_len host_unsigned (mem (hello_with_sni 60 [116, 101, 115, 116])))
          (be16 (mem (hello_with_sni 60 [116, 101, 115, 116]))
            (43 + session_id_len host_unsigned (mem (hello_with_sni 60 [116, 101, 115, 116])) + 1))
          (compression_len host_unsigned (mem (hello_with_sni 60 [116, 101, 115, 116]))),
        rfc_extensions_len_index
          (session_id_len host_unsigned (mem (hello_with_sni 60 [116, 101, 115, 116])))
          (be16 (mem (hello_with_sni 60 [116, 101, 115, 116]))
            (43 + session_id_len host_unsigned (mem (hello_with_sni 60 [116, 101, 115, 116])) + 1))
          (compression_len host_unsigned (mem (hello_with_sni 60 [116, 101, 115, 116]))) + 1] ++
        rest) :=
  ⟨by decide,
   tls_framing_matches_rfc host_unsigned (mem (hello_with_sni 60 [116, 101, 115, 116])) 65
     (by decide)⟩

/-- C18 as stated fails: in the ClientHello for "test" (session-id length 0, cipher-suites
length 2, one compression method) RFC 5246 places the compression-methods length at index
48 and the extensions length at index 50; the call reads index 48, where it finds the
compression-methods length 1, and then indices 50 and 51, where it finds the extensions
length 13: no index differs by one. -/
theorem tls_framing_off_by_one_counterexample :
    rfc_compression_len_index 0 2 = 48 ∧ rfc_extensions_len_index 0 2 1 = 50 ∧
    cipher_end host_unsigned (mem (hello_with_sni 60 [116, 101, 115, 116])) + 1 = 48 ∧
    compression_len host_unsigned (mem (hello_with_sni 60 [116, 101, 115, 116])) = 1 ∧
    ext_base host_unsigned (mem (hello_with_sni 60 [116, 101, 115, 116])) = 50 ∧
    be16 (mem (hello_with_sni 60 [116, 101, 115, 116])) 50 = 13 ∧
    client_hello 60 [] [0xc0, 0x2f] [0] [sni_ext [116, 101, 115, 116]] =
      hello_with_sni 60 [116, 101, 115, 116] ∧
    get_tls_hostname_data host_unsigned (mem (hello_with_sni 60 [116, 101, 115, 116])) 65 =
      some ⟨Outcome.ok [116, 101, 115, 116, 0],
        [0, 3, 4, 5, 43, 44, 45, 48, 50, 51, 52, 53, 54, 55, 58, 59, 60, 61, 62, 63, 64]⟩ := by
  refine ⟨?_, ?_, ?_, ?_, ?_, ?_, ?_, ?_⟩ <;> decide

/-! Further claims about `tls_mt` -/

/-- C11, failing input: a packet whose version field is 5, with a ClientHello for
"api.example.com" behind the transport header.  No branch assigns `proto`; when the value
found there is 6 the TLS parser is called and the verdict is true, when it is 17 the QUIC
parser is called (here on a CHLO datagram, verdict true), and only for other values is the
verdict false without a parser call. -/
theorem tls_mt_other_version_uses_unassigned_proto :
    tls_mt host_unsigned ext_example 6 (tcp_packet 5 0 0 (hello_with_sni 71 api_example_com))
        ⟨0, star_example_com⟩ =
      some ⟨some true, some (Parser.tls, Outcome.ok (api_example_com ++ [0]))⟩ ∧
    tls_mt host_unsigned ext_example 17 (udp_packet 5 0 0 1358 quic_hello)
        ⟨0, star_example_com⟩ =
      some ⟨some true, some (Parser.quic, Outcome.ok (api_example_com ++ [0]))⟩ ∧
    tls_mt host_unsigned ext_example 0 (tcp_packet 5 0 0 (hello_with_sni 71 api_example_com))
        ⟨0, star_example_com⟩ = some ⟨some false, none⟩ := by
  refine ⟨?_, ?_, ?_⟩ <;> decide

/-! Claims about the extension loop -/

/-- C17. When the checks before the loop pass, the loop over a block of `extensions_len`
bytes ends within `ceil((extensions_len - 2) / 4)` iterations, which is fewer than a
quarter of the payload length, and the call returns what the loop returns; every iteration
that goes on moves `extension_offset` forward by at least 4 to a value below `2 ^ 32`. -/
theorem ext_walk_iteration_bound (h : Host) (data : Nat → Nat) (data_len : Nat)
    (hok : hdr_ok h data data_len) :
    ∃ r, ext_walk data (ext_base h data) (be16 data (ext_base h data))
        ((be16 data (ext_base h data) - 2 + 3) / 4) 2 = some r ∧
      get_tls_hostname_data h data data_len = some ⟨r.out, hdr_reads h data ++ r.reads⟩ ∧
      (be16 data (ext_base h data) - 2 + 3) / 4 < data_len / 4 ∧
      ∀ eo, eo < be16 data (ext_base h data) →
        eo + 4 ≤ eo + 4 + be16 data (ext_base h data + (eo + 2)) ∧
        eo + 4 + be16 data (ext_base h data + (eo + 2)) < 4294967296 := by
  obtain ⟨r, hr⟩ := ext_walk_fuel4 data (ext_base h data) (be16 data (ext_base h data))
    ((be16 data (ext_base h data) - 2 + 3) / 4) 2 (by omega)
  have hel := be16_lt data (ext_base h data)
  refine ⟨r, hr, ?_, ?_, ?_⟩
  · have hfull : ext_walk data (ext_base h data) (be16 data (ext_base h data))
        (be16 data (ext_base h data)) 2 = some r := by
      have := ext_walk_fuel_mono data _ _ _ _ r hr
        (be16 data (ext_base h data) - (be16 data (ext_base h data) - 2 + 3) / 4)
      rwa [show (be16 data (ext_base h data) - 2 + 3) / 4 +
        (be16 data (ext_base h data) - (be16 data (ext_base h data) - 2 + 3) / 4) =
        be16 data (ext_base h data) by omega] at this
    rw [tls_run_ok h data data_len hok, hfull]
    rfl
  · have hle := tls_header_len_le h data data_len
    have hx := hok.2.2.2.2.2.2.2
    have hb : 47 ≤ ext_base h data := by unfold ext_base cipher_end; omega
    omega
  · intro eo heo
    have := be16_lt data (ext_base h data + (eo + 2))
    omega

/-- Witness for C17: the ClientHello for "test" (13 bytes of extensions, 3 iterations
allowed, 1 used). -/
theorem ext_walk_iteration_bound_witness :
    hdr_ok host_unsigned (mem (hello_with_sni 60 [116, 101, 115, 116])) 65 ∧
    ∃ r, ext_walk (mem (hello_with_sni 60 [116, 101, 115, 116]))
        (ext_base host_unsigned (mem (hello_with_sni 60 [116, 101, 115, 116])))
        (be16 (mem (hello_with_sni 60 [116, 101, 115, 116]))
          (ext_base host_unsigned (mem (hello_with_sni 60 [116, 101, 115, 116]))))
        ((be16 (mem (hello_with_sni 60 [116, 101, 115, 116]))
          (ext_base host_unsigned (mem (hello_with_sni 60 [116, 101, 115, 116]))) - 2 + 3) / 4)
        2 = some r ∧
      get_tls_hostname_data host_unsigned (mem (hello_with_sni 60 [116, 101, 115, 116])) 65 =
        some ⟨r.out,
          hdr_reads host_unsigned (mem (hello_with_sni 60 [116, 101, 115, 116])) ++ r.reads⟩ ∧
      (be16 (mem (hello_with_sni 60 [116, 101, 115, 116]))
          (ext_base host_unsigned (mem (hello_with_sni 60 [116, 101, 115, 116]))) - 2 + 3) / 4 <
        65 / 4 ∧
      ∀ eo, eo < be16 (mem (hello_with_sni 60 [116, 101, 115, 116]))
          (ext_base host_unsigned (mem (hello_with_sni 60 [116, 101, 115, 116]))) →
        eo + 4 ≤ eo + 4 + be16 (mem (hello_with_sni 60 [116, 101, 115, 116]))
          (ext_base host_unsigned (mem (hello_with_sni 60 [116, 101, 115, 116])) + (eo + 2)) ∧
        eo + 4 + be16 (mem (hello_with_sni 60 [116, 101, 115, 116]))
          (ext_base host_unsigned (mem (hello_with_sni 60 [116, 101, 115, 116])) + (eo + 2)) <
          4294967296 :=
  ⟨by decide,
   ext_walk_iteration_bound host_unsigned (mem (hello_with_sni 60 [116, 101, 115, 116])) 65
     (by decide)⟩

/-- C20. When the checks before the loop pass and the extensions block starts with
extensions of other types followed, at index `q`, by an extension of type 0, the call
returns the buffer copied from behind the name-length field of that extension, with the
length found in that field, whatever the extension-length field at `q + 2` and the
list-length field at `q + 4` hold and whatever follows the name: the list length is never
read, and no index at or after the end of the name is read, so later extensions of type 0
are not looked at. -/
theorem first_type0_extension_wins (h : Host) (data : Nat → Nat) (data_len : Nat)
    (pre : List Extension) (q : Nat) (hok : hdr_ok h data data_len)
    (hq : q = ext_base h data + 2 + (encode_exts pre).length)
    (hpre : span data (ext_base h data + 2) (encode_exts pre).length = encode_exts pre)
    (hno : ∀ e ∈ pre, e.id ≠ 0)
    (hin : 2 + (encode_exts pre).length < be16 data (ext_base h data))
    (hid : be16 data q = 0) :
    ∃ reads, get_tls_hostname_data h data data_len =
        some ⟨Outcome.ok ((strncpy data (q + 9) (be16 data (q + 7))).1 ++ [0]), reads⟩ ∧
      reads = hdr_reads h data ++ ext_hdrs (ext_base h data) 2 pre ++
        [q, q + 1, q + 2, q + 3, q + 6, q + 7, q + 8] ++
        (strncpy data (q + 9) (be16 data (q + 7))).2 ∧
      (∀ i ∈ reads, i < q + 9 + be16 data (q + 7)) ∧ q + 4 ∉ reads ∧ q + 5 ∉ reads := by
  have hpl := encode_exts_length_ge pre
  have hsp : span data (ext_base h data + 2) (encode_exts pre ++ []).length =
      encode_exts pre ++ [] := by simpa using hpre
  obtain ⟨k, hk⟩ : ∃ k, be16 data (ext_base h data) = pre.length + (k + 1) :=
    ⟨be16 data (ext_base h data) - pre.length - 1, by omega⟩
  have hrun : ext_walk data (ext_base h data) (be16 data (ext_base h data))
      (be16 data (ext_base h data)) 2 =
      some ⟨Outcome.ok ((strncpy data (q + 9) (be16 data (q + 7))).1 ++ [0]),
        ext_hdrs (ext_base h data) 2 pre ++ ([q, q + 1, q + 2, q + 3, q + 6, q + 7, q + 8] ++
          (strncpy data (q + 9) (be16 data (q + 7))).2)⟩ := by
    generalize hel : be16 data (ext_base h data) = el at hk hin ⊢
    nth_rewrite 2 [hk]
    rw [ext_walk_skip_run data _ el pre (k + 1) 2 [] hsp hno (by omega)]
    have hq' : ext_base h data + (2 + (encode_exts pre).length) = q := by omega
    unfold ext_walk
    simp only [hin, if_true, hq', hid]
    have p6 : ext_base h data + (2 + (encode_exts pre).length + 6) = q + 6 := by omega
    have p7 : ext_base h data + (2 + (encode_exts pre).length + 7) = q + 7 := by omega
    have p9 : ext_base h data + (2 + (encode_exts pre).length + 9) = q + 9 := by omega
    simp only [p6, p7, p9, Option.map_some', List.cons_append, List.nil_append,
      List.append_assoc]
  refine ⟨_, by rw [tls_run_ok h data data_len hok, hrun]; rfl, ?_, ?_, ?_, ?_⟩
  · simp only [List.append_assoc]
  · intro i hi
    simp only [List.mem_append, List.mem_cons, List.mem_singleton, List.not_mem_nil,
      or_false] at hi
    rcases hi with hi | hi | hi | hi
    · have := hdr_reads_lt h data i hi; omega
    · have := ext_hdrs_lt _ pre 2 i hi; omega
    · omega
    · have := strncpy_reads data _ _ i hi; omega
  · intro hi
    simp only [List.mem_append, List.mem_cons, List.mem_singleton, List.not_mem_nil,
      or_false] at hi
    rcases hi with hi | hi | hi | hi
    · have := hdr_reads_lt h data _ hi; omega
    · have := ext_hdrs_lt _ pre 2 _ hi; omega
    · omega
    · have := strncpy_reads data _ _ _ hi; omega
  · intro hi
    simp only [List.mem_append, List.mem_cons, List.mem_singleton, List.not_mem_nil,
      or_false] at hi
    rcases hi with hi | hi | hi | hi
    · have := hdr_reads_lt h data _ hi; omega
    · have := ext_hdrs_lt _ pre 2 _ hi; omega
    · omega
    · have := strncpy_reads data _ _ _ hi; omega

/-- Witness for C20: the record `two_sni_hello`; the first extension of type 0 starts at
index 56, says extension length 0 and list length 65535, and is followed by a second
extension of type 0 at index 69 with the name "b.io"; the call returns "a.io" and reads
nothing from index 69 on. -/
theorem first_type0_extension_wins_witness :
    hdr_ok host_unsigned two_sni_hello 82 ∧
    be16 two_sni_hello 56 = 0 ∧ be16 two_sni_hello (56 + 2) = 0 ∧
    be16 two_sni_hello (56 + 4) = 65535 ∧ be16 two_sni_hello 69 = 0 ∧
    get_tls_hostname_data host_unsigned two_sni_hello 82 =
      some ⟨Outcome.ok [97, 46, 105, 111, 0],
        [0, 3, 4, 5, 43, 44, 45, 48, 50, 51, 52, 53, 54, 55, 56, 57, 58, 59, 62, 63, 64,
          65, 66, 67, 68]⟩ ∧
    ∃ reads, get_tls_hostname_data host_unsigned two_sni_hello 82 =
        some ⟨Outcome.ok ((strncpy two_sni_hello (56 + 9) (be16 two_sni_hello (56 + 7))).1 ++ [0]),
          reads⟩ ∧
      reads = hdr_reads host_unsigned two_sni_hello ++
        ext_hdrs (ext_base host_unsigned two_sni_hello) 2 [⟨23, []⟩] ++
        [56, 56 + 1, 56 + 2, 56 + 3, 56 + 6, 56 + 7, 56 + 8] ++
        (strncpy two_sni_hello (56 + 9) (be16 two_sni_hello (56 + 7))).2 ∧
      (∀ i ∈ reads, i < 56 + 9 + be16 two_sni_hello (56 + 7)) ∧ 56 + 4 ∉ reads ∧
      56 + 5 ∉ reads :=
  ⟨by decide, by decide, by decide, by decide, by decide, by decide,
   first_type0_extension_wins host_unsigned two_sni_hello 82 [⟨23, []⟩] 56 (by decide)
     (by decide) (by decide) (by decide) (by decide) (by decide)⟩

/-! Claims about the QUIC tag table -/

/-- C19. On a little-endian host, in a datagram of length 1358 with "CHLO" at 30..33 and
tag-count bytes 0x02 0x00 at 34..35: the tag count is 2; four bytes 05 00 00 00 are the
value 5; when neither of the first two entries is the SNI tag the call returns EPROTO
after looking at the second entry and reads no index from 54 on, where a third entry would
start; and when the first entry is another tag with end-offset bytes 05 00 00 00 and the
second is the SNI tag whose value ends inside the 1358 - 8 payload bytes, the buffer is
copied from index 38 + 8 * 2 + 5. -/
theorem quic_values_in_host_order (h : Host) (data : Nat → Nat)
    (hle : h.little_endian = true) (hchlo : span data 30 4 = CHLO_TAG)
    (hcnt : span data 34 2 = [2, 0]) :
    host16 h data 34 = 2 ∧
    (∀ j, span data j 4 = [5, 0, 0, 0] → host32 h data j = 5) ∧
    (span data 38 4 ≠ SNI_TAG → span data 46 4 ≠ SNI_TAG →
      (get_quic_hostname_data h 1358 data).out = Outcome.eproto ∧
      50 ∈ (get_quic_hostname_data h 1358 data).reads ∧
      ∀ i ∈ (get_quic_hostname_data h 1358 data).reads, i < 54) ∧
    (span data 38 4 ≠ SNI_TAG → span data 42 4 = [5, 0, 0, 0] → span data 46 4 = SNI_TAG →
      5 ≤ host32 h data 50 → 38 + 8 * 2 + host32 h data 50 ≤ 1358 - 8 →
      (get_quic_hostname_data h 1358 data).out =
        Outcome.ok ((strncpy data (38 + 8 * 2 + 5) (host32 h data 50 - 5)).1 ++ [0])) := by
  have h16 : host16 h data 34 = 2 := by
    simp only [span, List.cons.injEq, and_true] at hcnt
    unfold host16
    rw [if_pos hle, hcnt.1, hcnt.2]
  have h32 : ∀ j, span data j 4 = [5, 0, 0, 0] → host32 h data j = 5 := by
    intro j hj
    simp only [span, List.cons.injEq, and_true] at hj
    obtain ⟨a0, a1, a2, a3⟩ := hj
    unfold host32
    rw [if_pos hle, a0, show j + 1 + 1 = j + 2 by omega] at *
    rw [a1, show j + 2 + 1 = j + 3 by omega] at *
    rw [a2, a3]
  refine ⟨h16, h32, ?_, ?_⟩
  · intro n0 n1
    rw [quic_run_chlo h data hchlo, h16,
      tag_walk_step_other h data 38 2 1 0 0 (by simpa using n0),
      tag_walk_step_other h data 38 2 0 (0 + 8) _ (by simpa using n1)]
    refine ⟨rfl, ?_, ?_⟩
    · simp [tag_walk]
    · intro i hi
      simp only [tag_walk, List.mem_append, List.mem_cons, List.mem_singleton,
        List.not_mem_nil, or_false, List.append_nil] at hi
      rcases hi with hi | (hi | hi) | hi | hi
      · omega
      · have := strncmp_reads data _ _ _ hi
        simp only [List.length_cons, List.length_nil] at this
        omega
      · omega
      · have := strncmp_reads data _ _ _ hi
        simp only [List.length_cons, List.length_nil] at this
        omega
      · omega
  · intro n0 e0 s1 hge hlt
    have hprev : host32 h data (38 + (0 + 4)) = 5 := h32 _ (by simpa using e0)
    rw [quic_run_chlo h data hchlo, h16,
      tag_walk_step_other h data 38 2 1 0 0 (by simpa using n0)]
    simp only []
    rw [tag_walk_step_sni h data 38 2 0 (0 + 8) _ (by simpa using s1), hprev,
      show host32 h data (38 + (0 + 8 + 4)) = host32 h data 50 from rfl,
      sub_i32_small _ _ (host32_lt h data _) hge (by omega)]
    rw [if_neg (by omega), Int.toNat_ofNat, if_neg (by unfold KMALLOC_MAX_SIZE; omega)]

/-- Witness for C19: the datagram `quic_two`, whose first entry has end-offset bytes
05 00 00 00 and whose second entry is the SNI tag with end offset 20.  For contrast, the
datagram `quic_third` has the SNI tag in a third entry, which a walk over two entries never
reaches, and a big-endian host reads the same count bytes as 512. -/
theorem quic_values_in_host_order_witness :
    host_unsigned.little_endian = true ∧ span quic_two 30 4 = CHLO_TAG ∧
    span quic_two 34 2 = [2, 0] ∧ span quic_two 42 4 = [5, 0, 0, 0] ∧
    (get_quic_hostname_data host_unsigned 1358 quic_two).out =
      Outcome.ok (api_example_com ++ [0]) ∧
    (span quic_third 34 2 = [2, 0] ∧ span quic_third 54 4 = SNI_TAG ∧
      get_quic_hostname_data host_unsigned 1358 quic_third =
        ⟨Outcome.eproto, [30, 31, 32, 33, 34, 35, 38, 42, 43, 44, 45, 46, 50, 51, 52, 53]⟩) ∧
    host16 ⟨false, false⟩ quic_two 34 = 512 ∧
    (host16 host_unsigned quic_two 34 = 2 ∧
    (∀ j, span quic_two j 4 = [5, 0, 0, 0] → host32 host_unsigned quic_two j = 5) ∧
    (span quic_two 38 4 ≠ SNI_TAG → span quic_two 46 4 ≠ SNI_TAG →
      (get_quic_hostname_data host_unsigned 1358 quic_two).out = Outcome.eproto ∧
      50 ∈ (get_quic_hostname_data host_unsigned 1358 quic_two).reads ∧
      ∀ i ∈ (get_quic_hostname_data host_unsigned 1358 quic_two).reads, i < 54) ∧
    (span quic_two 38 4 ≠ SNI_TAG → span quic_two 42 4 = [5, 0, 0, 0] →
      span quic_two 46 4 = SNI_TAG →
      5 ≤ host32 host_unsigned quic_two 50 → 38 + 8 * 2 + host32 host_unsigned quic_two 50 ≤ 1358 - 8 →
      (get_quic_hostname_data host_unsigned 1358 quic_two).out =
        Outcome.ok ((strncpy quic_two (38 + 8 * 2 + 5)
          (host32 host_unsigned quic_two 50 - 5)).1 ++ [0]))) :=
  ⟨rfl, by decide, by decide, by decide, by decide, by decide, by decide,
   quic_values_in_host_order host_unsigned quic_two rfl (by decide) (by decide)⟩
end XtTls
